import Mathlib

/-!
# Static evaluator of the mock-data extension: shallow embedding

This development embeds the repository's static tree-walking evaluator and
its sibling reducers in Lean 4:

* the preview-value extractor (`parseTsExportedObject`, `evalValue`,
  `findReturnedObject` and friends), which reduces a parsed TypeScript
  syntax tree of a route file to a JSON-compatible value;
* the zod call-chain schema builder (`mapZodSchemas`, `schemaFromZodExpression`,
  `mergeObjectSchemas`);
* the declared-type schema builder (`parseDtsSource`, `schemaFromTypeNode`);
* the fallback text scanner for route-entry configuration
  (`findEntriesBlocks`, `parseEntriesBlock`, `parseEntryObject`).

The syntax-tree parser itself is an external collaborator: the embedding
starts from an already-parsed tree, modelled by the inductive types below.
JavaScript numbers are modelled as exact rationals together with an explicit
`NaN` element; IEEE-754 rounding and overflow to `Infinity` are out of scope.
Since the evaluator resolves identifiers through unevaluated `const`
expressions and can therefore loop on cyclic bindings, evaluation functions
take an explicit fuel argument and return `none` when the fuel runs out;
the source functions have no such cutoff, so `none` for every fuel models
nontermination of the original.
-/

namespace Mokup

/-- A JavaScript number: an exact rational or NaN. -/
inductive JNum where
  | fin : ℚ → JNum
  | nan : JNum
deriving DecidableEq

/-- Truncation toward zero, as JS `Math.trunc` / the `%` operator uses. -/
def jsTrunc (q : ℚ) : ℚ :=
  if 0 ≤ q then ((⌊q⌋ : ℤ) : ℚ) else ((⌈q⌉ : ℤ) : ℚ)

namespace JNum

def add : JNum → JNum → JNum
  | fin a, fin b => fin (a + b)
  | _, _ => nan

def sub : JNum → JNum → JNum
  | fin a, fin b => fin (a - b)
  | _, _ => nan

def mul : JNum → JNum → JNum
  | fin a, fin b => fin (a * b)
  | _, _ => nan

/-- JS division; callers guard the right operand against literal `0`. -/
def div : JNum → JNum → JNum
  | fin a, fin b => fin (a / b)
  | _, _ => nan

/-- JS remainder `a % b = a - b * trunc(a / b)`; a zero divisor gives NaN. -/
def mod : JNum → JNum → JNum
  | fin a, fin b => if b = 0 then nan else fin (a - b * jsTrunc (a / b))
  | _, _ => nan

/-- Numeric equality as `===` sees it: NaN is equal to nothing. -/
def beqNum : JNum → JNum → Bool
  | fin a, fin b => a = b
  | _, _ => false

def ltNum : JNum → JNum → Bool
  | fin a, fin b => a < b
  | _, _ => false

def leNum : JNum → JNum → Bool
  | fin a, fin b => a ≤ b
  | _, _ => false

def neg : JNum → JNum
  | fin a => fin (-a)
  | nan => nan

end JNum

/-- A JS runtime value as the evaluator produces and consumes it
(`EvaluatedValue` in the spec, `unknown` in the source). Objects are
insertion-ordered string-keyed association lists. -/
inductive Value where
  | str : String → Value
  | num : JNum → Value
  | bool : Bool → Value
  | null : Value
  | undef : Value
  | arr : List Value → Value
  | obj : List (String × Value) → Value

/-- The unresolved-expression marker the evaluator degrades to. -/
def marker : Value := Value.str "<expr>"

/-- JS truthiness. -/
def jsTruthy : Value → Bool
  | .str s => s ≠ ""
  | .num (.fin q) => q ≠ 0
  | .num .nan => false
  | .bool b => b
  | .null => false
  | .undef => false
  | .arr _ => true
  | .obj _ => true

/-- Decimal digits of the fractional part of `r ∈ [0, 1)`, at most `k` of
them (JS prints a rounded shortest form; this exact printer agrees with it
on terminating decimals, which is all the sources produce). -/
def fracDigits (r : ℚ) : Nat → String
  | 0 => ""
  | k + 1 =>
    if r = 0 then ""
    else
      let d : ℤ := ⌊r * 10⌋
      Nat.repr d.toNat ++ fracDigits (r * 10 - (d : ℚ)) k

def ratToStringNonneg (q : ℚ) : String :=
  let ip : Nat := (⌊q⌋ : ℤ).toNat
  let fr : ℚ := q - (⌊q⌋ : ℤ)
  if fr = 0 then Nat.repr ip else Nat.repr ip ++ "." ++ fracDigits fr 17

/-- JS `String(n)` on a finite number. -/
def ratToString (q : ℚ) : String :=
  if q < 0 then "-" ++ ratToStringNonneg (-q) else ratToStringNonneg q

mutual

/-- JS `String(value)` coercion. Arrays join their elements with commas,
`null`/`undefined` elements becoming empty; plain objects print as
`[object Object]`. -/
def jsToString : Value → String
  | .str s => s
  | .num (.fin q) => ratToString q
  | .num .nan => "NaN"
  | .bool b => if b then "true" else "false"
  | .null => "null"
  | .undef => "undefined"
  | .arr l => String.intercalate "," (jsToStringArr l)
  | .obj _ => "[object Object]"

def jsToStringArr : List Value → List String
  | [] => []
  | .null :: vs => "" :: jsToStringArr vs
  | .undef :: vs => "" :: jsToStringArr vs
  | v :: vs => jsToString v :: jsToStringArr vs

end

def digitsToNat (cs : List Char) : Nat :=
  cs.foldl (fun acc c => 10 * acc + (c.toNat - 48)) 0

/-- JS `Number(string)` on a trimmed string: optional sign, then decimal
digits with an optional fraction. Hexadecimal, exponent and `Infinity`
forms are approximated as NaN (none occur in the sources). -/
def strToNumCore (cs : List Char) : JNum :=
  match cs with
  | [] => .fin 0
  | _ =>
    let (sign, rest) :=
      match cs with
      | '-' :: r => (true, r)
      | '+' :: r => (false, r)
      | r => (false, r)
    let intPart := rest.takeWhile Char.isDigit
    let afterInt := rest.dropWhile Char.isDigit
    let ok :=
      match afterInt with
      | [] => !intPart.isEmpty
      | '.' :: fr =>
        (fr.takeWhile Char.isDigit).length = fr.length
          && (!intPart.isEmpty || !fr.isEmpty)
      | _ => false
    if ok then
      let fr :=
        match afterInt with
        | '.' :: f => f
        | _ => []
      let v : ℚ := (digitsToNat intPart : ℚ)
        + (digitsToNat fr : ℚ) / ((10 : ℚ) ^ fr.length)
      .fin (if sign then -v else v)
    else .nan

def jsIsSpaceChar (c : Char) : Bool :=
  c = ' ' || c = '\t' || c = '\n' || c = '\r'

def strToNum (s : String) : JNum :=
  strToNumCore ((s.toList.dropWhile jsIsSpaceChar).reverse.dropWhile jsIsSpaceChar).reverse

/-- JS `Number(value)` coercion; objects go through `ToPrimitive`, i.e.
their string form. -/
def jsToNumber : Value → JNum
  | .num n => n
  | .bool b => .fin (if b then 1 else 0)
  | .null => .fin 0
  | .undef => .nan
  | .str s => strToNum s
  | .arr l => strToNum (jsToString (.arr l))
  | .obj _ => strToNum "[object Object]"

/-- JS strict equality `===`. Two separately evaluated objects or arrays are
distinct references, so the object/object case is `false`; the evaluator
never compares a binding against itself by reference. -/
def jsStrictEq : Value → Value → Bool
  | .str a, .str b => a = b
  | .num a, .num b => a.beqNum b
  | .bool a, .bool b => a = b
  | .null, .null => true
  | .undef, .undef => true
  | _, _ => false

/-- JS loose equality `==` with the standard coercions; the object/object
case is reference equality and is modelled as `false`. -/
def jsLooseEq : Value → Value → Bool
  | .str a, .str b => a = b
  | .num a, .num b => a.beqNum b
  | .bool a, .bool b => a = b
  | .null, .null => true
  | .undef, .undef => true
  | .null, .undef => true
  | .undef, .null => true
  | .num a, .str s => a.beqNum (strToNum s)
  | .str s, .num a => JNum.beqNum (strToNum s) a
  | .bool b, .num a => JNum.beqNum (.fin (if b then 1 else 0)) a
  | .num a, .bool b => a.beqNum (.fin (if b then 1 else 0))
  | .bool b, .str s => JNum.beqNum (.fin (if b then 1 else 0)) (strToNum s)
  | .str s, .bool b => JNum.beqNum (strToNum s) (.fin (if b then 1 else 0))
  | .num a, .arr l => a.beqNum (strToNum (jsToString (.arr l)))
  | .arr l, .num a => JNum.beqNum (strToNum (jsToString (.arr l))) a
  | .str s, .arr l => s = jsToString (.arr l)
  | .arr l, .str s => jsToString (.arr l) = s
  | .num a, .obj _ => a.beqNum (strToNum "[object Object]")
  | .obj _, .num a => JNum.beqNum (strToNum "[object Object]") a
  | .str s, .obj _ => s = "[object Object]"
  | .obj _, .str s => "[object Object]" = s
  | .bool b, .arr l => JNum.beqNum (.fin (if b then 1 else 0)) (strToNum (jsToString (.arr l)))
  | .arr l, .bool b => JNum.beqNum (strToNum (jsToString (.arr l))) (.fin (if b then 1 else 0))
  | .bool b, .obj _ => JNum.beqNum (.fin (if b then 1 else 0)) (strToNum "[object Object]")
  | .obj _, .bool b => JNum.beqNum (strToNum "[object Object]") (.fin (if b then 1 else 0))
  | _, _ => false

def jsonEscape (s : String) : String :=
  s.toList.foldl
    (fun acc c =>
      acc ++
        (if c = '"' then "\\\""
         else if c = '\\' then "\\\\"
         else if c = '\n' then "\\n"
         else if c = '\r' then "\\r"
         else if c = '\t' then "\\t"
         else String.singleton c))
    ""

mutual

/-- Compact `JSON.stringify`: NaN prints as `null`, `undefined` entries in
arrays become `null` and are dropped from objects. -/
def jsonStringify : Value → String
  | .str s => "\"" ++ jsonEscape s ++ "\""
  | .num (.fin q) => ratToString q
  | .num .nan => "null"
  | .bool b => if b then "true" else "false"
  | .null => "null"
  | .undef => "null"
  | .arr l => "[" ++ String.intercalate "," (jsonStringifyArr l) ++ "]"
  | .obj l => "\x7b" ++ String.intercalate "," (jsonStringifyObj l) ++ "\x7d"

def jsonStringifyArr : List Value → List String
  | [] => []
  | .undef :: vs => "null" :: jsonStringifyArr vs
  | v :: vs => jsonStringify v :: jsonStringifyArr vs

def jsonStringifyObj : List (String × Value) → List String
  | [] => []
  | (_, .undef) :: rest => jsonStringifyObj rest
  | (k, v) :: rest =>
    ("\"" ++ jsonEscape k ++ "\":" ++ jsonStringify v) :: jsonStringifyObj rest

end

end Mokup

namespace Mokup

/-! ## Syntax tree

The external Syntax Tree Provider supplies parsed nodes; the evaluator only
inspects their kind and children. The inductives below embed the node kinds
the source dispatches on; `otherE` / `otherStmt` stand for every node kind
the source has no branch for. The `ts` library handle threaded through the
source functions exists only to perform kind tests and has no counterpart
here. -/

/-- A property name (`getPropName`): identifier, string or numeric literal. -/
inductive PropName where
  | id (s : String)
  | strN (s : String)
  | numN (s : String)
  | otherN

inductive PrefixOp where
  | not
  | plus
  | minus
  | otherOp

inductive BinOp where
  | plus | minus | star | slash | percent
  | eqq | neqq | eq | neq
  | gt | ge | lt | le
  | andand | oror
  | otherB

mutual

inductive Expr where
  | strL (s : String)
  | noSubTmpl (s : String)
  | numL (q : ℚ)
  | boolL (b : Bool)
  | nullL
  | tmpl (head : String) (spans : List (Expr × String))
  | arrayL (elems : List Expr)
  | objL (props : List ObjProp)
  | ident (name : String)
  | paren (e : Expr)
  | asE (e : Expr)
  | nonNull (e : Expr)
  | prefixU (op : PrefixOp) (e : Expr)
  | binary (l : Expr) (op : BinOp) (r : Expr)
  | cond (c t e : Expr)
  | fn (params : List (Option String)) (body : FnBody)
  | call (callee : Expr) (args : List Expr)
  | propAccess (obj : Expr) (name : String)
  | otherE

/-- An arrow function / function expression body: a bare expression or a
block of statements. Parameters are their names when the binding pattern is
an identifier, `none` otherwise. -/
inductive FnBody where
  | expr (e : Expr)
  | block (stmts : List Stmt)

inductive ObjProp where
  | assign (name : PropName) (init : Expr)
  | shorthand (name : String)
  | otherProp

inductive Stmt where
  | ret (e : Option Expr)
  | varStmt (isConst : Bool) (decls : List (Option String × Option Expr))
  | exprStmt (e : Expr)
  | block (stmts : List Stmt)
  | ifS (c : Expr) (thn : Stmt) (els : Option Stmt)
  | funcDecl (params : List (Option String)) (body : List Stmt)
  | exportAssign (e : Expr)
  | otherStmt

end

/-- A binding: an unevaluated expression or an already-reduced value. -/
inductive EnvValue where
  | eexpr (e : Expr)
  | evalue (v : Value)

/-- The binding environment, an insertion-ordered map like a JS `Map`. -/
abbrev Env := List (String × EnvValue)

/-- JS `Map.set` / object index assignment: overwrite in place or append. -/
def assocSet {α : Type} (l : List (String × α)) (k : String) (v : α) :
    List (String × α) :=
  if l.any (fun p => p.1 = k) then
    l.map (fun p => if p.1 = k then (k, v) else p)
  else l ++ [(k, v)]

def assocGet {α : Type} (l : List (String × α)) (k : String) : Option α :=
  (l.find? (fun p => p.1 = k)).map (fun p => p.2)

def envSet (env : Env) (k : String) (v : EnvValue) : Env := assocSet env k v

def envGet (env : Env) (k : String) : Option EnvValue := assocGet env k

/-- Source `getPropName`. -/
def getPropName : PropName → Option String
  | .id s => some s
  | .strN s => some s
  | .numN s => some s
  | .otherN => none

/-- Positional parameter binding in `createFunctionEnv`: parameter `i` is
bound when a value list is supplied, `i` is within it, and the parameter
pattern is an identifier. -/
def bindParams (env : Env) : List (Option String) → List Value → Env
  | _, [] => env
  | [], _ => env
  | some n :: ps, v :: vs => bindParams (envSet env n (.evalue v)) ps vs
  | none :: ps, _ :: vs => bindParams env ps vs

mutual

/-- Source `collectConstExpressionsInNode`: walk a function body collecting
`const` declarations as unevaluated bindings, without descending into nested
functions. -/
def cceStmt : Stmt → Env → Env
  | .varStmt true decls, env =>
    decls.foldl
      (fun acc d =>
        match d with
        | (some n, some init) => envSet acc n (.eexpr init)
        | _ => acc)
      env
  | .varStmt false _, env => env
  | .block ss, env => cceStmts ss env
  | .ifS _ thn els, env =>
    let env1 := cceStmt thn env
    match els with
    | some s => cceStmt s env1
    | none => env1
  | .funcDecl _ _, env => env
  | .ret _, env => env
  | .exprStmt _, env => env
  | .exportAssign _, env => env
  | .otherStmt, env => env

def cceStmts : List Stmt → Env → Env
  | [], env => env
  | s :: ss, env => cceStmts ss (cceStmt s env)

end

mutual

/-- Source `collectReturnExpressions`: every `return <expr>` reachable
without descending into nested function or method bodies. -/
def creStmt : Stmt → List Expr
  | .ret (some e) => [e]
  | .ret none => []
  | .block ss => creStmts ss
  | .ifS _ thn els =>
    creStmt thn ++
      (match els with
       | some s => creStmt s
       | none => [])
  | .funcDecl _ _ => []
  | .varStmt _ _ => []
  | .exprStmt _ => []
  | .exportAssign _ => []
  | .otherStmt => []

def creStmts : List Stmt → List Expr
  | [] => []
  | s :: ss => creStmt s ++ creStmts ss

end

/-- Source `createFunctionEnv`: copy the base environment, bind parameters
positionally when argument values are supplied, then collect the body's
`const` declarations. -/
def createFunctionEnv (params : List (Option String)) (body : FnBody)
    (baseEnv : Env) (pv : Option (List Value)) : Env :=
  let env1 :=
    match pv with
    | none => baseEnv
    | some vals => bindParams baseEnv params vals
  match body with
  | .block ss => cceStmts ss env1
  | .expr _ => env1

/-- The accumulating loop of `findReturnedObject` over collected returns:
remembers the last object-literal return, the last identifier return, and
the last return of any kind. -/
def selectReturns (returns : List Expr) :
    Option (List ObjProp) × Option String × Option Expr :=
  returns.foldl
    (fun acc e =>
      match e with
      | .objL ps => (some ps, acc.2.1, some e)
      | .ident n => (acc.1, some n, some e)
      | _ => (acc.1, acc.2.1, some e))
    (none, none, none)

/-- Source `resolveObjectProperty`: the initializer of the first property
with the given name; a shorthand property resolves through `expr`-kind
bindings only. -/
def resolveObjectProperty : List ObjProp → String → Env → Option Expr
  | [], _, _ => none
  | .assign name init :: ps, key, env =>
    if getPropName name = some key then some init
    else resolveObjectProperty ps key env
  | .shorthand n :: ps, key, env =>
    if n = key then
      match envGet env n with
      | some (.eexpr e) => some e
      | _ => resolveObjectProperty ps key env
    else resolveObjectProperty ps key env
  | .otherProp :: ps, key, env => resolveObjectProperty ps key env

/-- Source `isArrayFromCall`: the callee is `Array.from`. -/
def isArrayFromCall (callee : Expr) : Bool :=
  match callee with
  | .propAccess e n =>
    n = "from" &&
      (match e with
       | .ident t => t = "Array"
       | _ => false)
  | _ => false

/-- Source `getPropertyAccessPath`: the dotted path of a property-access
chain rooted at an identifier. -/
def gpapGo : Expr → List String → Option (List String)
  | .propAccess e n, acc => gpapGo e (n :: acc)
  | .ident n, acc => some (n :: acc)
  | _, _ => none

def getPropertyAccessPath (e : Expr) : Option (List String) := gpapGo e []

/-- Source `makeNumericString`: digit `i % 10` at position `i`. -/
def makeNumericString (len : Nat) : String :=
  String.mk ((List.range len).map (fun i => Char.ofNat (48 + i % 10)))

def asNumV : Value → Option JNum
  | .num n => some n
  | _ => none

def isStrV : Value → Bool
  | .str _ => true
  | _ => false

/-- The operator switch of `evalBinaryExpression` (source lines 508-571),
applied to the already-evaluated operands. -/
def evalBinaryOp (op : BinOp) (left right : Value) : Value :=
  if jsStrictEq left marker || jsStrictEq right marker then marker
  else
    match op with
    | .plus =>
      if isStrV left || isStrV right then
        .str (jsToString left ++ jsToString right)
      else
        match asNumV left, asNumV right with
        | some a, some b => .num (a.add b)
        | _, _ => marker
    | .minus =>
      match asNumV left, asNumV right with
      | some a, some b => .num (a.sub b)
      | _, _ => marker
    | .star =>
      match asNumV left, asNumV right with
      | some a, some b => .num (a.mul b)
      | _, _ => marker
    | .slash =>
      match asNumV left, asNumV right with
      | some a, some b =>
        if jsStrictEq right (.num (.fin 0)) then marker else .num (a.div b)
      | _, _ => marker
    | .percent =>
      match asNumV left, asNumV right with
      | some a, some b => .num (a.mod b)
      | _, _ => marker
    | .eqq => .bool (jsStrictEq left right)
    | .neqq => .bool (!jsStrictEq left right)
    | .eq => .bool (jsLooseEq left right)
    | .neq => .bool (!jsLooseEq left right)
    | .gt =>
      match asNumV left, asNumV right with
      | some a, some b => .bool (JNum.ltNum b a)
      | _, _ => marker
    | .ge =>
      match asNumV left, asNumV right with
      | some a, some b => .bool (JNum.leNum b a)
      | _, _ => marker
    | .lt =>
      match asNumV left, asNumV right with
      | some a, some b => .bool (JNum.ltNum a b)
      | _, _ => marker
    | .le =>
      match asNumV left, asNumV right with
      | some a, some b => .bool (JNum.leNum a b)
      | _, _ => marker
    | .andand => if jsTruthy left then right else left
    | .oror => if jsTruthy left then left else right
    | .otherB => marker

def asFinite : Value → Option ℚ
  | .num (.fin q) => some q
  | _ => none

/-- Iteration count of `for (let index = 0; index < length; index++)` over a
finite JS number `length`. -/
def loopCount (q : ℚ) : Nat := ⌈q⌉₊

/-- The per-span stringification inside `evalTemplateExpression` (lines
474-482): the marker stays marker text, `null`/`undefined` stringify, object
values are JSON-stringified inline, everything else goes through
`String(value)`. -/
def spanPiece (v : Value) : String :=
  if jsStrictEq v marker then "<expr>"
  else
    match v with
    | .null => jsToString .null
    | .undef => jsToString .undef
    | .obj l => jsonStringify (.obj l)
    | .arr l => jsonStringify (.arr l)
    | v1 => jsToString v1

end Mokup

namespace Mokup

set_option maxHeartbeats 2000000 in
mutual

/-- Source `evalValue` (lines 262-315 of the preview evaluator): reduce an
expression to a value in the binding environment. Fuel `0` means the
recursion budget is exhausted (the source has no cutoff and would still be
recursing). -/
def evalV : Nat → Expr → Env → Option Value
  | 0, _, _ => none
  | f + 1, e, env =>
    match e with
    | .paren e1 => evalV f e1 env
    | .strL s => some (.str s)
    | .noSubTmpl s => some (.str s)
    | .numL q => some (.num (.fin q))
    | .tmpl head spans => (evalTemplate f head spans env).map Value.str
    | .prefixU op e1 => evalPrefixUnary f op e1 env
    | .binary l op r => evalBinaryExpression f l op r env
    | .cond c t e2 => evalConditionalExpression f c t e2 env
    | .boolL b => some (.bool b)
    | .nullL => some .null
    | .arrayL els => (evalList f els env).map Value.arr
    | .asE e1 => evalV f e1 env
    | .nonNull e1 => evalV f e1 env
    | .objL props => (evalObjectLiteral f props env []).map Value.obj
    | .ident name =>
      match envGet env name with
      | some (.evalue v) => some v
      | some (.eexpr e1) => evalV f e1 env
      | none => some (.str ("<" ++ name ++ ">"))
    | .fn params body =>
      (findReturnedObject f params body env none).map
        (fun r => r.getD (.str "<function>"))
    | .call callee args => evalCallExpression f callee args env
    | .propAccess _ _ => some marker
    | .otherE => some marker
termination_by f _ _ => (f, 0)

/-- Element-wise reduction of an array literal. -/
def evalList : Nat → List Expr → Env → Option (List Value)
  | 0, _, _ => none
  | _ + 1, [], _ => some []
  | f + 1, e :: es, env => do
    let v ← evalV f e env
    let vs ← evalList (f + 1) es env
    some (v :: vs)
termination_by f es _ => (f, es.length)

/-- Source `evalObjectLiteral` (lines 235-260), with the object built so far
as the accumulator (`result[key] = v` overwrites in place). -/
def evalObjectLiteral :
    Nat → List ObjProp → Env → List (String × Value) → Option (List (String × Value))
  | 0, _, _, _ => none
  | _ + 1, [], _, acc => some acc
  | f + 1, p :: ps, env, acc =>
    match p with
    | .assign name init =>
      match getPropName name with
      | none => evalObjectLiteral (f + 1) ps env acc
      | some key => do
        let v ← evalV f init env
        evalObjectLiteral (f + 1) ps env (assocSet acc key v)
    | .shorthand key =>
      match envGet env key with
      | some (.evalue v) => evalObjectLiteral (f + 1) ps env (assocSet acc key v)
      | some (.eexpr e) => do
        let v ← evalV f e env
        evalObjectLiteral (f + 1) ps env (assocSet acc key v)
      | none =>
        evalObjectLiteral (f + 1) ps env
          (assocSet acc key (.str ("<" ++ key ++ ">")))
    | .otherProp => evalObjectLiteral (f + 1) ps env acc
termination_by f props _ _ => (f, props.length)

/-- Source `evalTemplateExpression` (lines 468-486), with the string built
so far as the accumulator. An unresolved span appends the marker text; an
object span appends its inline JSON. -/
def evalTemplate : Nat → String → List (Expr × String) → Env → Option String
  | 0, _, _, _ => none
  | _ + 1, acc, [], _ => some acc
  | f + 1, acc, (e, lit) :: rest, env => do
    let v ← evalV f e env
    evalTemplate (f + 1) (acc ++ spanPiece v ++ lit) rest env
termination_by f _ spans _ => (f, spans.length)

/-- Source `evalPrefixUnary` (lines 488-506). -/
def evalPrefixUnary : Nat → PrefixOp → Expr → Env → Option Value
  | 0, _, _, _ => none
  | f + 1, op, e, env => do
    let v ← evalV f e env
    if jsStrictEq v marker then some marker
    else
      match op with
      | .not => some (.bool (!jsTruthy v))
      | .plus =>
        match v with
        | .num n => some (.num n)
        | v1 => some (.num (jsToNumber v1))
      | .minus =>
        match v with
        | .num n => some (.num n.neg)
        | v1 =>
          match jsToNumber v1 with
          | .nan => some marker
          | .fin q => some (.num (.fin (-q)))
      | .otherOp => some marker
termination_by f _ _ _ => (f, 0)

/-- Source `evalBinaryExpression` (lines 508-571): evaluate both operands,
then apply the operator switch `evalBinaryOp`. -/
def evalBinaryExpression : Nat → Expr → BinOp → Expr → Env → Option Value
  | 0, _, _, _, _ => none
  | f + 1, l, op, r, env => do
    let lv ← evalV f l env
    let rv ← evalV f r env
    some (evalBinaryOp op lv rv)
termination_by f _ _ _ _ => (f, 0)

/-- Source `evalConditionalExpression` (lines 573-582): an unresolved
condition makes the whole expression unresolved; otherwise only the live
branch is evaluated. -/
def evalConditionalExpression : Nat → Expr → Expr → Expr → Env → Option Value
  | 0, _, _, _, _ => none
  | f + 1, c, t, e, env => do
    let cv ← evalV f c env
    if jsStrictEq cv marker then some marker
    else if jsTruthy cv then evalV f t env
    else evalV f e env
termination_by f _ _ _ _ => (f, 0)

/-- Source `evalCallExpression` (lines 584-599): the define-handler wrapper,
then `Array.from`, then the faker namespace, else the marker. -/
def evalCallExpression : Nat → Expr → List Expr → Env → Option Value
  | 0, _, _, _ => none
  | f + 1, callee, args, env => do
    let dh ← extractDefineHandlerReturn f callee args env
    match dh with
    | some v => some v
    | none => do
      let af ← evalArrayFromCall f callee args env
      match af with
      | some l => some (.arr l)
      | none => do
        let fk ← evalFakerCall f callee args env
        match fk with
        | some v => some v
        | none => some marker
termination_by f _ _ _ => (f, 0)

/-- Source `evalArrayFromCall` (lines 601-623): `none` when the call is not
`Array.from`; an unresolvable length gives the empty array. -/
def evalArrayFromCall : Nat → Expr → List Expr → Env → Option (Option (List Value))
  | 0, _, _, _ => none
  | f + 1, callee, args, env =>
    if isArrayFromCall callee then do
      let len ← extractArrayFromLength f args.head? env
      match len with
      | none => some (some [])
      | some q => do
        let l ← arrayFromLoop f (loopCount q) 0 (args.get? 1) env
        some (some l)
    else some none
termination_by f _ _ _ => (f, 0)

/-- The index loop of `evalArrayFromCall`: one Function Return Analyzer run
per index, the index passed as the second bound parameter; `undefined`
results and missing producers push `null`. -/
def arrayFromLoop : Nat → Nat → Nat → Option Expr → Env → Option (List Value)
  | 0, _, _, _, _ => none
  | _ + 1, 0, _, _, _ => some []
  | f + 1, c + 1, idx, mapper, env =>
    match mapper with
    | some (.fn params body) => do
      let r ← findReturnedObject f params body env (some [.undef, .num (.fin idx)])
      let rest ← arrayFromLoop (f + 1) c (idx + 1) mapper env
      some (r.getD .null :: rest)
    | _ => do
      let rest ← arrayFromLoop (f + 1) c (idx + 1) mapper env
      some (.null :: rest)
termination_by f c _ _ _ => (f, c)

/-- Source `extractArrayFromLength` (lines 634-657). -/
def extractArrayFromLength : Nat → Option Expr → Env → Option (Option ℚ)
  | 0, _, _ => none
  | f + 1, arg, env =>
    match arg with
    | none => some none
    | some (.arrayL els) => some (some (els.length : ℚ))
    | some (.objL props) => do
      let r ← lengthScan f props env
      match r with
      | some q => some (some q)
      | none => do
        let v ← evalV f (.objL props) env
        some (asFinite v)
    | some e => do
      let v ← evalV f e env
      some (asFinite v)
termination_by f _ _ => (f, 0)

/-- The property scan of `extractArrayFromLength`: the first `length`
property whose value reduces to a finite number. -/
def lengthScan : Nat → List ObjProp → Env → Option (Option ℚ)
  | 0, _, _ => none
  | _ + 1, [], _ => some none
  | f + 1, p :: ps, env =>
    match p with
    | .assign name init =>
      if getPropName name = some "length" then do
        let v ← evalV f init env
        match v with
        | .num (.fin q) => some (some q)
        | _ => lengthScan (f + 1) ps env
      else lengthScan (f + 1) ps env
    | _ => lengthScan (f + 1) ps env
termination_by f props _ => (f, props.length)

/-- Source `evalFakerCall` (lines 659-677): deterministic stubs for the
recognized faker generators, a dotted-path marker for the rest. -/
def evalFakerCall : Nat → Expr → List Expr → Env → Option (Option Value)
  | 0, _, _, _ => none
  | f + 1, callee, args, env =>
    match getPropertyAccessPath callee with
    | none => some none
    | some path =>
      match path with
      | "faker" :: restPath =>
        let method := String.intercalate "." restPath
        if method = "string.numeric" then do
          let lv ←
            match args.head? with
            | some a => evalV f a env
            | none => some (Value.num (.fin 0))
          let len : Nat :=
            match lv with
            | .num (.fin q) => (max 1 ⌊q⌋).toNat
            | _ => 6
          some (some (.str (makeNumericString len)))
        else if method = "commerce.productName" then
          some (some (.str "Sample Product"))
        else
          some (some (.str ("<" ++ String.intercalate "." path ++ ">")))
      | _ => some none
termination_by f _ _ _ => (f, 0)

/-- Source `findReturnedObject` (lines 369-401): the Function Return
Analyzer. Inner `none` is the source's `undefined`. -/
def findReturnedObject :
    Nat → List (Option String) → FnBody → Env → Option (List Value) →
    Option (Option Value)
  | 0, _, _, _, _ => none
  | f + 1, params, body, env, pv =>
    let localEnv := createFunctionEnv params body env pv
    match body with
    | .expr e => (evalV f e localEnv).map some
    | .block stmts =>
      let sel := selectReturns (creStmts stmts)
      match sel.1 with
      | some props =>
        (evalObjectLiteral f props localEnv []).map (fun l => some (.obj l))
      | none =>
        match sel.2.1 with
        | some name =>
          match envGet localEnv name with
          | some (.evalue v) => some (some v)
          | some (.eexpr e) => (evalV f e localEnv).map some
          | none =>
            match sel.2.2 with
            | some e => (evalV f e localEnv).map some
            | none => some none
        | none =>
          match sel.2.2 with
          | some e => (evalV f e localEnv).map some
          | none => some none
termination_by f _ _ _ _ => (f, 0)

/-- Source `extractDefineHandlerReturn` (lines 327-338). -/
def extractDefineHandlerReturn :
    Nat → Expr → List Expr → Env → Option (Option Value)
  | 0, _, _, _ => none
  | f + 1, callee, args, env =>
    match callee with
    | .ident n =>
      if n = "defineHandler" then extractHandlerReturnArg f args env
      else some none
    | .propAccess _ n =>
      if n = "defineHandler" then extractHandlerReturnArg f args env
      else some none
    | _ => some none
termination_by f _ _ _ => (f, 0)

/-- Source `extractHandlerReturnArg` (lines 340-367). -/
def extractHandlerReturnArg : Nat → List Expr → Env → Option (Option Value)
  | 0, _, _ => none
  | f + 1, args, env =>
    match args.head? with
    | none => some none
    | some (.fn params body) => do
      let r ← findReturnedObject f params body env none
      some (some (r.getD (.str "<function>")))
    | some (.objL props) =>
      match resolveObjectProperty props "handler" env with
      | some hExpr => do
        let rf ← resolveFunctionExpression f hExpr env
        match rf with
        | some (params, body) => do
          let r ← findReturnedObject f params body env none
          some (some (r.getD (.str "<function>")))
        | none => some none
      | none => some none
    | some _ => some none
termination_by f _ _ => (f, 0)

/-- Source `resolveFunctionExpression` (lines 727-740). -/
def resolveFunctionExpression :
    Nat → Expr → Env → Option (Option (List (Option String) × FnBody))
  | 0, _, _ => none
  | f + 1, e, env =>
    match e with
    | .fn params body => some (some (params, body))
    | .ident n =>
      match envGet env n with
      | some (.eexpr e1) => resolveFunctionExpression f e1 env
      | _ => some none
    | _ => some none
termination_by f _ _ => (f, 0)

/-- Source `extractObjectFromExpression` (lines 205-233). -/
def extractObjectFromExpression : Nat → Expr → Env → Option (Option Value)
  | 0, _, _ => none
  | f + 1, e, env =>
    match e with
    | .paren e1 => extractObjectFromExpression f e1 env
    | .ident n =>
      match envGet env n with
      | some (.eexpr e1) => extractObjectFromExpression f e1 env
      | some (.evalue v) => some (some v)
      | none => some none
    | .objL props =>
      (evalObjectLiteral f props env []).map (fun l => some (.obj l))
    | .call callee args => do
      let dh ← extractDefineHandlerReturn f callee args env
      match dh with
      | some v => some (some v)
      | none =>
        match args.head? with
        | some (.fn params body) => do
          let r ← findReturnedObject f params body env none
          match r with
          | some v => some (some v)
          | none => some none
        | _ => some none
    | _ => some none
termination_by f _ _ => (f, 0)

end

end Mokup

namespace Mokup

/-- Source `collectConstExpressions` (lines 187-203): top-level `const`
declarations of the source file become unevaluated bindings; the walk does
not recurse into nested statements. -/
def collectConstExpressions (src : List Stmt) : Env :=
  src.foldl
    (fun env s =>
      match s with
      | .varStmt true decls =>
        decls.foldl
          (fun acc d =>
            match d with
            | (some n, some init) => envSet acc n (.eexpr init)
            | _ => acc)
          env
      | _ => env)
    []

/-- The statement loop of `parseTsExportedObject`: the first export
assignment whose expression extracts to a value. -/
def parseExportLoop (f : Nat) : List Stmt → Env → Option (Option (Value × String))
  | [], _ => some none
  | .exportAssign e :: rest, env => do
    let r ← extractObjectFromExpression f e env
    match r with
    | some v => some (some (v, "parsed export default"))
    | none => parseExportLoop f rest env
  | _ :: rest, env => parseExportLoop f rest env

/-- Source `parseTsExportedObject` (lines 161-185), starting from the parsed
source file (the parser itself is the external capability). -/
def parseTsExportedObject (f : Nat) (src : List Stmt) :
    Option (Option (Value × String)) :=
  parseExportLoop f src (collectConstExpressions src)

end Mokup

namespace Mokup

/-! ## Call-chain (zod) schema builder and type-node schema builder -/

/-- A JSON value, for schema fragments (`Record<string, unknown>` shapes).
Objects are insertion-ordered association lists. -/
inductive JVal where
  | str (s : String)
  | num (q : ℚ)
  | bool (b : Bool)
  | null
  | arr (l : List JVal)
  | obj (l : List (String × JVal))

/-- A schema fragment: the key/value record itself. -/
abbrev Schema := List (String × JVal)

/-- Source `SchemaWithFlags`: the fragment plus the internal `optional`
flag (absent in the source is `false` here). -/
structure SchemaWithFlags where
  schema : Schema
  optional : Bool := false

mutual

/-- Structural equality on JSON values, as JS `Set` membership
(SameValueZero) sees the string entries the sources deduplicate; object and
array entries would compare by reference in JS and do not occur in
`required` lists. -/
def jvalBEq : JVal → JVal → Bool
  | .str a, .str b => a = b
  | .num a, .num b => a = b
  | .bool a, .bool b => a = b
  | .null, .null => true
  | .arr a, .arr b => jvalListBEq a b
  | .obj a, .obj b => jvalObjBEq a b
  | _, _ => false

def jvalListBEq : List JVal → List JVal → Bool
  | [], [] => true
  | a :: as1, b :: bs => jvalBEq a b && jvalListBEq as1 bs
  | _, _ => false

def jvalObjBEq : List (String × JVal) → List (String × JVal) → Bool
  | [], [] => true
  | (k1, v1) :: as1, (k2, v2) :: bs => k1 = k2 && jvalBEq v1 v2 && jvalObjBEq as1 bs
  | _, _ => false

end

/-- `Array.from(new Set(xs))`: first-occurrence-preserving deduplication. -/
def jsSetDedup : List JVal → List JVal
  | [] => []
  | x :: xs => x :: jsSetDedup (xs.filter (fun y => !jvalBEq x y))
termination_by l => l.length
decreasing_by
  simp only [List.length_cons]
  exact Nat.lt_succ_of_le (List.length_filter_le _ _)

/-- Source `isObjectSchema`: the fragment's `type` is `"object"`. -/
def isObjectSchema (s : Schema) : Bool :=
  match assocGet s "type" with
  | some (.str t) => t = "object"
  | _ => true = false

/-- The `properties` record of a fragment; spreading an absent field gives
the empty record (the source casts and never stores a non-record there). -/
def jGetObjProps (s : Schema) : List (String × JVal) :=
  match assocGet s "properties" with
  | some (.obj l) => l
  | _ => []

/-- The `required` array of a fragment, `[]` unless it is an array
(`Array.isArray` guard in the source). -/
def jGetArr (s : Schema) (k : String) : List JVal :=
  match assocGet s k with
  | some (.arr l) => l
  | _ => []

/-- JS object spread `{...a, ...b}`: keys of `a` in order with values
overridden by `b`, then the new keys of `b` appended in order. -/
def objSpread (a b : List (String × JVal)) : List (String × JVal) :=
  b.foldl (fun acc p => assocSet acc p.1 p.2) a

/-- Source `mergeObjectSchemas` (part_004 lines 269-287). -/
def mergeObjectSchemas (base extension : SchemaWithFlags) : SchemaWithFlags :=
  if !(isObjectSchema base.schema) || !(isObjectSchema extension.schema) then base
  else
    let properties := objSpread (jGetObjProps base.schema) (jGetObjProps extension.schema)
    let required := jGetArr base.schema "required" ++ jGetArr extension.schema "required"
    let schema : Schema := [("type", .str "object"), ("properties", .obj properties)]
    let schema :=
      if required.length > 0 then schema ++ [("required", .arr (jsSetDedup required))]
      else schema
    { schema := schema }

/-- The zod environment: previously reduced chain results by binding name. -/
abbrev ZEnv := List (String × SchemaWithFlags)

mutual

/-- Source `schemaFromZodExpression` (part_004 lines 41-127): an identifier
resolves through the environment of previously reduced chains; a call whose
callee is a property access dispatches on the method name; everything else
reduces to `none` (the source's `null`, the inner `Option`). As in the
evaluator, the outer `Option` is the fuel cutoff: the source recursion is
structural on the expression, so any fuel above the expression depth is
never exhausted. -/
def schemaFromZodExpression : Nat → Expr → ZEnv → Option (Option SchemaWithFlags)
  | 0, _, _ => none
  | f + 1, node, env =>
    match node with
    | .ident n => some (assocGet env n)
    | .call (.propAccess target method) args =>
      schemaFromZodMethod f target method args env
    | _ => some none
termination_by f _ _ => (f, 0)

/-- The method dispatch of `schemaFromZodExpression` for a chained call
`target.method(args)`, in the source's order of checks. -/
def schemaFromZodMethod :
    Nat → Expr → String → List Expr → ZEnv → Option (Option SchemaWithFlags)
  | 0, _, _, _, _ => none
  | f + 1, target, method, args, env =>
    match method with
    | "optional" => do
      let base ← schemaFromZodExpression f target env
      match base with
      | none => some none
      | some b => some (some { schema := b.schema, optional := true })
    | "nullable" => do
      let base ← schemaFromZodExpression f target env
      match base with
      | none => some none
      | some b =>
        some (some { schema :=
          [("anyOf", .arr [.obj b.schema, .obj [("type", .str "null")]])] })
    | "nullish" => do
      let base ← schemaFromZodExpression f target env
      match base with
      | none => some none
      | some b =>
        some (some { schema :=
                       [("anyOf", .arr [.obj b.schema, .obj [("type", .str "null")]])],
                     optional := true })
    | "extend" => do
      let base ← schemaFromZodExpression f target env
      match base, args with
      | some b, .objL props :: _ => do
        let sh ← zodShapeGo f props env [] []
        some (some (mergeObjectSchemas b sh))
      | some b, _ => some (some b)
      | none, _ => some none
    | "merge" => do
      let base ← schemaFromZodExpression f target env
      let other ←
        match args with
        | otherExpr :: _ => schemaFromZodExpression f otherExpr env
        | [] => some none
      match base, other with
      | some b, some o => some (some (mergeObjectSchemas b o))
      | some b, none => some (some b)
      | none, some o => some (some o)
      | none, none => some none
    | "pipe" =>
      (match args with
       | targetSchema :: _ => do
         let mapped ← schemaFromZodExpression f targetSchema env
         match mapped with
         | some m => some (some m)
         | none => schemaFromZodExpression f target env
       | [] => schemaFromZodExpression f target env)
    | "transform" => schemaFromZodExpression f target env
    | "refine" => schemaFromZodExpression f target env
    | "superRefine" => schemaFromZodExpression f target env
    | "default" => schemaFromZodExpression f target env
    | "catch" => schemaFromZodExpression f target env
    | "brand" => schemaFromZodExpression f target env
    | "describe" => schemaFromZodExpression f target env
    | _ =>
      if (match target with | .ident t => t == "z" | _ => false : Bool) then
        schemaFromZodCall f method args env
      else if (match target with
               | .propAccess (.ident t) c => t == "z" && c == "coerce"
               | _ => false : Bool) then
        schemaFromZodCall f method args env
      else
        schemaFromZodExpression f target env
termination_by f _ _ _ _ => (f, 0)

/-- Source `schemaFromZodCall` (part_004 lines 129-241). -/
def schemaFromZodCall :
    Nat → String → List Expr → ZEnv → Option (Option SchemaWithFlags)
  | 0, _, _, _ => none
  | f + 1, method, args, env =>
    match method with
    | "string" => some (some { schema := [("type", .str "string")] })
    | "number" => some (some { schema := [("type", .str "number")] })
    | "boolean" => some (some { schema := [("type", .str "boolean")] })
    | "date" =>
      some (some { schema := [("type", .str "string"), ("format", .str "date-time")] })
    | "array" => do
      let item : Schema ←
        match args with
        | a :: _ => do
          let r ← schemaFromZodExpression f a env
          some (match r with
                | some sw => sw.schema
                | none => [])
        | [] => some []
      some (some { schema := [("type", .str "array"), ("items", .obj item)] })
    | "tuple" =>
      (match args with
       | .arrayL els :: _ => do
         let items ← zodSchemaList f els env
         some (some { schema :=
           [("type", .str "array"),
            ("items", .arr (items.map JVal.obj)),
            ("minItems", .num items.length),
            ("maxItems", .num items.length)] })
       | _ => some (some { schema := [("type", .str "array")] }))
    | "object" =>
      (match args with
       | .objL props :: _ => do
         let sh ← zodShapeGo f props env [] []
         some (some sh)
       | _ => some (some { schema := [("type", .str "object")] }))
    | "record" => do
      let additionalProperties : Schema ←
        match args with
        | _ :: v :: _ => do
          let r ← schemaFromZodExpression f v env
          some (match r with
                | some sw => sw.schema
                | none => [])
        | v :: _ => do
          let r ← schemaFromZodExpression f v env
          some (match r with
                | some sw => sw.schema
                | none => [])
        | [] => some []
      let propertyNames : Option Schema ←
        match args with
        | k :: _ :: _ => do
          let r ← schemaFromZodExpression f k env
          some (r.map SchemaWithFlags.schema)
        | _ => some none
      let schema : Schema :=
        [("type", .str "object"), ("additionalProperties", .obj additionalProperties)]
      let schema :=
        match propertyNames with
        | some pn => schema ++ [("propertyNames", .obj pn)]
        | none => schema
      some (some { schema := schema })
    | "enum" =>
      (match args with
       | .arrayL els :: _ =>
         let values := els.filterMap (fun el =>
           match el with
           | .strL s => some s
           | _ => none)
         some (some { schema :=
           [("type", .str "string"), ("enum", .arr (values.map JVal.str))] })
       | _ => some (some { schema := [("type", .str "string")] }))
    | "union" =>
      (match args with
       | .arrayL els :: _ => do
         let schemas ← zodSchemaList f els env
         some (some { schema := [("oneOf", .arr (schemas.map JVal.obj))] })
       | _ => some (some { schema := [] }))
    | "discriminatedUnion" =>
      let propertyName :=
        match args with
        | .strL s :: _ => some s
        | _ => none
      (match args with
       | _ :: .arrayL els :: _ => do
         let schemas ← zodSchemaList f els env
         let schema : Schema := [("oneOf", .arr (schemas.map JVal.obj))]
         let schema :=
           match propertyName with
           | some pn => schema ++ [("discriminator", .obj [("propertyName", .str pn)])]
           | none => schema
         some (some { schema := schema })
       | _ => some (some { schema := [] }))
    | "preprocess" =>
      (match args with
       | _ :: schemaArg :: _ => do
         let r ← schemaFromZodExpression f schemaArg env
         some (some (r.getD { schema := [] }))
       | schemaArg :: _ => do
         let r ← schemaFromZodExpression f schemaArg env
         some (some (r.getD { schema := [] }))
       | [] => some (some { schema := [] }))
    | "optional" =>
      (match args with
       | a :: _ => do
         let r ← schemaFromZodExpression f a env
         match r with
         | some base => some (some { schema := base.schema, optional := true })
         | none => some none
       | [] => some none)
    | "nullable" =>
      (match args with
       | a :: _ => do
         let r ← schemaFromZodExpression f a env
         match r with
         | some base =>
           some (some { schema :=
             [("anyOf", .arr [.obj base.schema, .obj [("type", .str "null")]])] })
         | none => some none
       | [] => some none)
    | "literal" =>
      (match args with
       | .strL s :: _ => some (some { schema := [("type", .str "string"), ("const", .str s)] })
       | .numL q :: _ => some (some { schema := [("type", .str "number"), ("const", .num q)] })
       | .boolL b :: _ =>
         some (some { schema := [("type", .str "boolean"), ("const", .bool b)] })
       | _ :: _ => some (some { schema := [] })
       | [] => some (some { schema := [] }))
    | _ => some none
termination_by f _ _ _ => (f, 0)

/-- The element map of `tuple`/`union`/`discriminatedUnion`:
`schemaFromZodExpression(el)?.schema ?? {}` per element. -/
def zodSchemaList : Nat → List Expr → ZEnv → Option (List Schema)
  | 0, _, _ => none
  | _ + 1, [], _ => some []
  | f + 1, el :: rest, env => do
    let r ← schemaFromZodExpression f el env
    let tail ← zodSchemaList (f + 1) rest env
    some ((match r with
           | some sw => sw.schema
           | none => []) :: tail)
termination_by f els _ => (f, els.length)

/-- Source `schemaFromZodObjectShape` (part_004 lines 243-267), with the
properties and required keys accumulated in declaration order. -/
def zodShapeGo :
    Nat → List ObjProp → ZEnv → List (String × JVal) → List String →
    Option SchemaWithFlags
  | 0, _, _, _, _ => none
  | _ + 1, [], _, propsAcc, reqAcc =>
    let schema : Schema := [("type", .str "object"), ("properties", .obj propsAcc)]
    let schema :=
      if reqAcc.length > 0 then schema ++ [("required", .arr (reqAcc.map JVal.str))]
      else schema
    some { schema := schema }
  | f + 1, .assign name init :: rest, env, propsAcc, reqAcc =>
    (match getPropName name with
     | none => zodShapeGo (f + 1) rest env propsAcc reqAcc
     | some key => do
       let r ← schemaFromZodExpression f init env
       match r with
       | none => zodShapeGo (f + 1) rest env propsAcc reqAcc
       | some parsed =>
         zodShapeGo (f + 1) rest env (assocSet propsAcc key (.obj parsed.schema))
           (if !parsed.optional then reqAcc ++ [key] else reqAcc))
  | f + 1, _ :: rest, env, propsAcc, reqAcc =>
    zodShapeGo (f + 1) rest env propsAcc reqAcc
termination_by f props _ _ _ => (f, props.length)

end

/-- Source `schemaFromZodObjectShape` entry point. -/
def schemaFromZodObjectShape (f : Nat) (props : List ObjProp) (env : ZEnv) :
    Option SchemaWithFlags :=
  zodShapeGo f props env [] []

end Mokup

namespace Mokup

mutual

/-- A member of an interface or type-literal: a property signature with an
optional marker, or some other member kind. -/
inductive Member where
  | propSig (name : Option PropName) (question : Bool) (ty : Option TypeN)
  | otherM

/-- A declared type node, the input of the Type-Node Schema Builder. -/
inductive TypeN where
  | strKw | numKw | boolKw | anyKw | unknownKw | nullKw | objectKw
  | litStr (s : String)
  | litNum (q : ℚ)
  | litTrue
  | litFalse
  | litOther (text : String)
  | arrayT (el : TypeN)
  | tupleT (els : List TypeN)
  | unionT (ts : List TypeN)
  | interT (ts : List TypeN)
  | typeLit (members : List Member)
  | typeRef (name : String) (args : List TypeN)
  | otherT (text : String)

end

end Mokup

namespace Mokup

mutual

/-- A best-effort source rendering of a type node, standing in for the
`node.getText()` slice of the original file used in warning messages. -/
def tnText : TypeN → String
  | .strKw => "string"
  | .numKw => "number"
  | .boolKw => "boolean"
  | .anyKw => "any"
  | .unknownKw => "unknown"
  | .nullKw => "null"
  | .objectKw => "object"
  | .litStr s => "\"" ++ s ++ "\""
  | .litNum q => ratToString q
  | .litTrue => "true"
  | .litFalse => "false"
  | .litOther t => t
  | .arrayT el => tnText el ++ "[]"
  | .tupleT els => "[" ++ String.intercalate ", " (tnTextList els) ++ "]"
  | .unionT ts1 => String.intercalate " | " (tnTextList ts1)
  | .interT ts1 => String.intercalate " & " (tnTextList ts1)
  | .typeLit _ => "\x7b ... \x7d"
  | .typeRef n [] => n
  | .typeRef n args => n ++ "<" ++ String.intercalate ", " (tnTextList args) ++ ">"
  | .otherT t => t

def tnTextList : List TypeN → List String
  | [] => []
  | t :: rest => tnText t :: tnTextList rest

end

/-- The named-schema registry of one source file. -/
abbrev Registry := List (String × Schema)

mutual

/-- Source `schemaFromTypeNode` (parse-source.ts lines 95-185). Returns the
fragment and the warnings this call appended, in order; it is total and in
particular never throws. -/
def schemaFromTypeNode (node : TypeN) (reg : Registry) : Schema × List String :=
  match node with
  | .strKw => ([("type", .str "string")], [])
  | .numKw => ([("type", .str "number")], [])
  | .boolKw => ([("type", .str "boolean")], [])
  | .anyKw => ([], [])
  | .unknownKw => ([], [])
  | .nullKw => ([("type", .str "null")], [])
  | .objectKw => ([("type", .str "object")], [])
  | .litStr s => ([("type", .str "string"), ("const", .str s)], [])
  | .litNum q => ([("type", .str "number"), ("const", .num q)], [])
  | .litTrue => ([("type", .str "boolean"), ("const", .bool true)], [])
  | .litFalse => ([("type", .str "boolean"), ("const", .bool false)], [])
  | .litOther t =>
    ([], ["Unsupported type node: " ++ tnText (.litOther t)])
  | .arrayT el =>
    let (items, w) := schemaFromTypeNode el reg
    ([("type", .str "array"), ("items", .obj items)], w)
  | .tupleT els =>
    let (items, w) := schemaListFromTypeNodes els reg
    ([("type", .str "array"),
      ("items", .arr (items.map JVal.obj)),
      ("minItems", .num items.length),
      ("maxItems", .num items.length)], w)
  | .unionT ts1 =>
    let (schemas, w) := schemaListFromTypeNodes ts1 reg
    ([("oneOf", .arr (schemas.map JVal.obj))], w)
  | .interT ts1 =>
    let (schemas, w) := schemaListFromTypeNodes ts1 reg
    ([("allOf", .arr (schemas.map JVal.obj))], w)
  | .typeLit members => schemaFromInterface members reg
  | .typeRef refName args =>
    match refName with
    | "Array" =>
      (match args with
       | typeArg :: _ =>
         let (items, w) := schemaFromTypeNode typeArg reg
         ([("type", .str "array"), ("items", .obj items)], w)
       | [] => ([("type", .str "array"), ("items", .obj [])], []))
    | "ReadonlyArray" =>
      (match args with
       | typeArg :: _ =>
         let (items, w) := schemaFromTypeNode typeArg reg
         ([("type", .str "array"), ("items", .obj items)], w)
       | [] => ([("type", .str "array"), ("items", .obj [])], []))
    | "Record" =>
      (match args with
       | _ :: valueType :: _ =>
         let (ap, w) := schemaFromTypeNode valueType reg
         ([("type", .str "object"), ("additionalProperties", .obj ap)], w)
       | _ => ([("type", .str "object"), ("additionalProperties", .obj [])], []))
    | _ =>
      (match assocGet reg refName with
       | some _ =>
         ([("$ref", .str ("#/components/schemas/" ++ refName))], [])
       | none =>
         ([], ["Unsupported type node: " ++ tnText (.typeRef refName args)]))
  | .otherT t => ([], ["Unsupported type node: " ++ t])
termination_by (sizeOf node, 0)

def schemaListFromTypeNodes (nodes : List TypeN) (reg : Registry) :
    List Schema × List String :=
  match nodes with
  | [] => ([], [])
  | t :: rest =>
    let (s, w) := schemaFromTypeNode t reg
    let (ss, ws) := schemaListFromTypeNodes rest reg
    (s :: ss, w ++ ws)
termination_by (sizeOf nodes, 0)

/-- Source `schemaFromInterface` (parse-source.ts lines 65-93). -/
def schemaFromInterface (members : List Member) (reg : Registry) :
    Schema × List String :=
  let (properties, required, w) := interfaceMembersGo members reg
  let result : Schema := [("type", .str "object"), ("properties", .obj properties)]
  let result :=
    if required.length > 0 then result ++ [("required", .arr (required.map JVal.str))]
    else result
  (result, w)
termination_by (sizeOf members, 1)

def interfaceMembersGo (members : List Member) (reg : Registry) :
    List (String × JVal) × List String × List String :=
  match members with
  | [] => ([], [], [])
  | .propSig name question ty :: rest =>
    (match name, ty with
     | some pn, some tyN =>
       (match getPropName pn with
        | some key =>
          let (schema, w) := schemaFromTypeNode tyN reg
          let (props, req, ws) := interfaceMembersGo rest reg
          (assocSet props key (.obj schema) |> fun p => (p,
            (if !question then key :: req else req), w ++ ws))
        | none => interfaceMembersGo rest reg)
     | _, _ => interfaceMembersGo rest reg)
  | .otherM :: rest => interfaceMembersGo rest reg
termination_by (sizeOf members, 0)

end

end Mokup

namespace Mokup

/-- A top-level declaration of a `.d.ts` source file, as both
`parseDtsSource` and `mapZodSchemas` walk it. -/
inductive TopDecl where
  | interfaceDecl (name : String) (members : List Member)
  | typeAlias (name : String) (ty : TypeN)
  | varTop (decls : List (Option String × Option Expr))
  | otherTop

/-- Source `mapZodSchemas` (part_004 lines 8-39), from the parsed tree: walk
every variable declaration, reduce its initializer as a zod chain, and
record both the schema map entry and the environment binding. -/
def mapZodSchemasGo (f : Nat) (decls : List TopDecl)
    (schemas : List (String × Schema)) (env : ZEnv) : List (String × Schema) :=
  match decls with
  | [] => schemas
  | .varTop ds :: rest =>
    let (schemas1, env1) :=
      ds.foldl
        (fun (acc : List (String × Schema) × ZEnv) d =>
          match d with
          | (some n, some init) =>
            (match schemaFromZodExpression f init acc.2 with
             | some (some parsed) => (assocSet acc.1 n parsed.schema, assocSet acc.2 n parsed)
             | _ => acc)
          | _ => acc)
        (schemas, env)
    mapZodSchemasGo f rest schemas1 env1
  | _ :: rest => mapZodSchemasGo f rest schemas env

def mapZodSchemas (f : Nat) (src : List TopDecl) : List (String × Schema) :=
  mapZodSchemasGo f src [] []

/-- The declaration walk of `parseDtsSource` (lines 23-34): interfaces and
type aliases populate the named-schema registry in order, with the registry
visible to later declarations; warnings accumulate in order. -/
def dtsWalk (decls : List TopDecl) (named : Registry) (warnings : List String) :
    Registry × List String :=
  match decls with
  | [] => (named, warnings)
  | .interfaceDecl name members :: rest =>
    let (schema, w) := schemaFromInterface members named
    dtsWalk rest (assocSet named name schema) (warnings ++ w)
  | .typeAlias name ty :: rest =>
    let (schema, w) := schemaFromTypeNode ty named
    dtsWalk rest (assocSet named name schema) (warnings ++ w)
  | _ :: rest => dtsWalk rest named warnings

def assocDelete {α : Type} (l : List (String × α)) (k : String) :
    List (String × α) :=
  l.filter (fun p => p.1 ≠ k)

/-- Result of `parseDtsSource`: the schema map and the warnings. -/
structure DtsParseResult where
  schemas : List (String × Schema)
  warnings : List String

/-- Source `parseDtsSource` (parse-source.ts lines 4-49), from the parsed
tree (the `typescript` require is the external capability). Zod-derived
schemas are inserted first and the colliding named schemas deleted, then the
remaining named schemas follow; an empty result appends the final warning. -/
def parseDtsSource (f : Nat) (src : List TopDecl) : DtsParseResult :=
  let (named, warnings) := dtsWalk src [] []
  let zodSchemas := mapZodSchemas f src
  let (schemas, named1) :=
    zodSchemas.foldl
      (fun (acc : List (String × Schema) × Registry) p =>
        (assocSet acc.1 p.1 p.2, assocDelete acc.2 p.1))
      ([], named)
  let schemas := named1.foldl (fun acc p => assocSet acc p.1 p.2) schemas
  let warnings :=
    if schemas.length = 0 then warnings ++ ["No schemas parsed from d.ts."]
    else warnings
  { schemas := schemas, warnings := warnings }

end Mokup

namespace Mokup

/-! ## Fallback Text Scanner (entries.ts)

The scanner works on raw text. Indices of the source loops are represented
by the remaining suffix of the character list; a returned slice is the
consumed prefix. Loops that jump forward (a regex resuming at `lastIndex`)
take a fuel argument initialised to one more than the text length, which
every step strictly exceeds, so the fuel never runs out. -/

/-- The single-quote character (the third recognized quote is a backtick,
built by code as well). -/
def sqChar : Char := Char.ofNat 39

def btChar : Char := Char.ofNat 96

def obChar : Char := Char.ofNat 123

def cbChar : Char := Char.ofNat 125

def isQuoteChar (c : Char) : Bool := c = sqChar || c = '"' || c = btChar

/-- A regex word character, for `\b` boundaries. -/
def isWordChar (c : Char) : Bool := c.isAlphanum || c = '_'

abbrev Text := List Char

/-- Source `skipWhitespace`, as a suffix transformer. -/
def skipWs (cs : Text) : Text := cs.dropWhile jsIsSpaceChar

/-- JS `String.prototype.trim`. -/
def jsTrim (cs : Text) : Text :=
  ((cs.dropWhile jsIsSpaceChar).reverse.dropWhile jsIsSpaceChar).reverse

/-- Source `findMatching` (entries.ts lines 658-694): string/escape-aware
bracket matching. Returns the consumed slice (both delimiters included) and
the rest; `none` is the source's `-1`. -/
def fmGo (oc cc : Char) : Text → Int → Option Char → Bool → Text → Option (Text × Text)
  | [], _, _, _, _ => none
  | ch :: rest, depth, inString, escape, acc =>
    let acc1 := acc ++ [ch]
    match inString with
    | some q =>
      if escape then fmGo oc cc rest depth (some q) false acc1
      else if ch = '\\' then fmGo oc cc rest depth (some q) true acc1
      else if ch = q then fmGo oc cc rest depth none false acc1
      else fmGo oc cc rest depth (some q) false acc1
    | none =>
      if isQuoteChar ch then fmGo oc cc rest depth (some ch) false acc1
      else if ch = oc then fmGo oc cc rest (depth + 1) none false acc1
      else if ch = cc then
        if depth - 1 = 0 then some (acc1, rest)
        else fmGo oc cc rest (depth - 1) none false acc1
      else fmGo oc cc rest depth none false acc1

/-- `findMatching` from the opener at the head of the suffix. -/
def findMatchingSfx (cs : Text) (cc : Char) : Option (Text × Text) :=
  match cs with
  | [] => none
  | oc :: _ => fmGo oc cc cs 0 none false []

/-- Source `findStringEnd` (lines 696-713), from the quote at the head. -/
def fseGo (q : Char) : Text → Bool → Text → Option (Text × Text)
  | [], _, _ => none
  | ch :: rest, escape, acc =>
    if escape then fseGo q rest false (acc ++ [ch])
    else if ch = '\\' then fseGo q rest true (acc ++ [ch])
    else if ch = q then some (acc ++ [ch], rest)
    else fseGo q rest false (acc ++ [ch])

def findStringEndSfx (cs : Text) : Option (Text × Text) :=
  match cs with
  | [] => none
  | q :: rest => (fseGo q rest false [q]).map (fun p => (p.1, p.2))

/-- One attempt of the regex `\bentries\s*[:=]\s*` at the current position
(the word boundary is checked by the caller): the suffix at the match end. -/
def matchEntriesPrefix (cs : Text) : Option Text :=
  if cs.take 7 = "entries".toList then
    match skipWs (cs.drop 7) with
    | ':' :: r => some (skipWs r)
    | '=' :: r => some (skipWs r)
    | _ => none
  else none

/-- The `re.exec` loop of `findEntriesBlocks` (lines 473-496). `prev` is the
character before the current position, for the `\b` boundary. -/
def febGo : Nat → Option Char → Text → List Text → List Text
  | 0, _, _, acc => acc
  | _ + 1, _, [], acc => acc
  | fuel + 1, prev, cs, acc =>
    let boundary :=
      match prev with
      | none => true
      | some c => !isWordChar c
    match (if boundary then matchEntriesPrefix cs else none) with
    | some k =>
      (match k with
       | '[' :: _ =>
         (match findMatchingSfx k ']' with
          | some (block, _) => febGo fuel (some ':') k (acc ++ [block])
          | none => febGo fuel (some ':') k acc)
       | c :: _ =>
         if c = obChar then
           match findMatchingSfx k cbChar with
           | some (block, _) => febGo fuel (some ':') k (acc ++ [block])
           | none => febGo fuel (some ':') k acc
         else if isQuoteChar c then
           match findStringEndSfx k with
           | some (block, _) => febGo fuel (some ':') k (acc ++ [block])
           | none => febGo fuel (some ':') k acc
         else febGo fuel (some ':') k acc
       | [] => acc)
    | none =>
      match cs with
      | c :: rest => febGo fuel (some c) rest acc
      | [] => acc

/-- Source `findEntriesBlocks` (lines 473-496). -/
def findEntriesBlocks (content : Text) : List Text :=
  febGo (content.length + 1) none content []

/-- Source `splitTopLevelItems` (lines 498-553): split at top-level commas,
string- and bracket-aware; the depth counter is shared by all brackets. -/
def stliGo : Text → Int → Text → Option Char → Bool → List Text → List Text
  | [], _, current, _, _, items =>
    if (jsTrim current).isEmpty then items else items ++ [jsTrim current]
  | ch :: rest, depth, current, inString, escape, items =>
    match inString with
    | some q =>
      let current1 := current ++ [ch]
      if escape then stliGo rest depth current1 (some q) false items
      else if ch = '\\' then stliGo rest depth current1 (some q) true items
      else if ch = q then stliGo rest depth current1 none false items
      else stliGo rest depth current1 (some q) false items
    | none =>
      if isQuoteChar ch then stliGo rest depth (current ++ [ch]) (some ch) false items
      else if ch = '[' || ch = obChar || ch = '(' then
        stliGo rest (depth + 1) (current ++ [ch]) none false items
      else if ch = ']' || ch = cbChar || ch = ')' then
        stliGo rest (depth - 1) (current ++ [ch]) none false items
      else if ch = ',' && depth = 0 then
        stliGo rest depth [] none false (items ++ [jsTrim current])
      else stliGo rest depth (current ++ [ch]) none false items

def splitTopLevelItems (arrayLiteral : Text) : List Text :=
  stliGo arrayLiteral 0 [] none false []

/-- The value scan of `extractValueSlice` (lines 563-611), from the value
start: three separate bracket depths, ended by a top-level comma or an
unmatched closing brace; the consumed prefix is the slice. -/
def evsGo : Text → Int → Int → Int → Option Char → Bool → Text → Text
  | [], _, _, _, _, _, acc => jsTrim acc
  | ch :: rest, dp, dk, db, inString, escape, acc =>
    match inString with
    | some q =>
      if escape then evsGo rest dp dk db (some q) false (acc ++ [ch])
      else if ch = '\\' then evsGo rest dp dk db (some q) true (acc ++ [ch])
      else if ch = q then evsGo rest dp dk db none false (acc ++ [ch])
      else evsGo rest dp dk db (some q) false (acc ++ [ch])
    | none =>
      if isQuoteChar ch then evsGo rest dp dk db (some ch) false (acc ++ [ch])
      else if ch = '(' then evsGo rest (dp + 1) dk db none false (acc ++ [ch])
      else if ch = ')' then evsGo rest (dp - 1) dk db none false (acc ++ [ch])
      else if ch = '[' then evsGo rest dp (dk + 1) db none false (acc ++ [ch])
      else if ch = ']' then evsGo rest dp (dk - 1) db none false (acc ++ [ch])
      else if ch = obChar then evsGo rest dp dk (db + 1) none false (acc ++ [ch])
      else if ch = cbChar then
        if db = 0 then jsTrim acc
        else evsGo rest dp dk (db - 1) none false (acc ++ [ch])
      else if ch = ',' && dp = 0 && dk = 0 && db = 0 then jsTrim acc
      else evsGo rest dp dk db none false (acc ++ [ch])

/-- The first match of `\b${key}\s*:\s*` (the regex of `extractValueSlice`):
the suffix at the match end. -/
def evsFind (key : Text) : Option Char → Text → Option Text
  | _, [] => none
  | prev, c :: rest =>
    let boundary :=
      match prev with
      | none => true
      | some p => !isWordChar p
    if boundary && (c :: rest).take key.length = key then
      match skipWs ((c :: rest).drop key.length) with
      | ':' :: r => some (skipWs r)
      | _ => evsFind key (some c) rest
    else evsFind key (some c) rest

/-- Source `extractValueSlice` (lines 555-612). -/
def extractValueSlice (objectLiteral : Text) (key : Text) : Option Text :=
  (evsFind key none objectLiteral).map (fun start =>
    evsGo start 0 0 0 none false [])

/-- The global regex loop of `extractStringLiterals`
(`/(['"`])([^'"`]+)\1/g`, lines 614-623): each match's second group. -/
def eslGo : Nat → Text → List Text → List Text
  | 0, _, acc => acc
  | _ + 1, [], acc => acc
  | fuel + 1, c :: rest, acc =>
    if isQuoteChar c then
      let run := rest.takeWhile (fun x => !isQuoteChar x)
      match rest.drop run.length with
      | c2 :: rest2 =>
        if c2 = c && !run.isEmpty then eslGo fuel rest2 (acc ++ [run])
        else eslGo fuel rest acc
      | [] => eslGo fuel rest acc
    else eslGo fuel rest acc

def extractStringLiterals : Option Text → List Text
  | none => []
  | some value => eslGo (value.length + 1) value []

/-- Source `parseStringLiteral` (lines 645-649): the anchored form of the
same pattern on the trimmed value. -/
def parseStringLiteral (value : Text) : Option Text :=
  match jsTrim value with
  | c :: rest =>
    if isQuoteChar c then
      let run := rest.takeWhile (fun x => !isQuoteChar x)
      match rest.drop run.length with
      | c2 :: _ => if c2 = c && !run.isEmpty then some run else none
      | [] => none
    else none
  | [] => none

/-- The `\bword\b` test of `parseBooleanLiteral` / `parseModeLiteral`. -/
def testWordRe (w : Text) : Option Char → Text → Bool
  | _, [] => false
  | prev, c :: rest =>
    let boundary :=
      match prev with
      | none => true
      | some p => !isWordChar p
    (boundary && (c :: rest).take w.length = w &&
        (match (c :: rest).drop w.length with
         | [] => true
         | nxt :: _ => !isWordChar nxt))
      || testWordRe w (some c) rest

/-- Source `parseBooleanLiteral` (lines 625-633). -/
def parseBooleanLiteral : Option Text → Option Bool
  | none => none
  | some value =>
    if testWordRe "true".toList none value then some true
    else if testWordRe "false".toList none value then some false
    else none

/-- Source `parseModeLiteral` (lines 635-643). -/
def parseModeLiteral : Option Text → Option String
  | none => none
  | some value =>
    if testWordRe "server".toList none value then some "server"
    else if testWordRe "sw".toList none value then some "sw"
    else none

/-- Source `MokupEntry`; the `prefix` field is named `prefixVal` because
`prefix` is a Lean keyword. Absent optional fields are `none`. -/
structure MokupEntry where
  dir : String
  prefixVal : Option String := none
  watch : Option Bool := none
  mode : Option String := none
deriving DecidableEq

/-- Source `parseEntryObject` (lines 449-471): the entries it yields and the
warnings it pushes. -/
def parseEntryObject (objectLiteral : Text) : List MokupEntry × List String :=
  let dirValue := extractValueSlice objectLiteral "dir".toList
  let prefixValue := extractValueSlice objectLiteral "prefix".toList
  let watchValue := extractValueSlice objectLiteral "watch".toList
  let modeValue := extractValueSlice objectLiteral "mode".toList
  let dirs := extractStringLiterals dirValue
  let pfx := (extractStringLiterals prefixValue).head?
  let watch := parseBooleanLiteral watchValue
  let mode := parseModeLiteral modeValue
  if dirs.isEmpty then
    ([], ["Entry object has no string dir literal, skipping."])
  else
    (dirs.map (fun d =>
      { dir := String.mk d
        prefixVal := pfx.map String.mk
        watch := watch
        mode := mode }), [])

/-- Source `parseEntriesArray` (lines 419-447). -/
def parseEntriesArray (arrayLiteral : Text) : List MokupEntry × List String :=
  let inner := ((jsTrim arrayLiteral).drop 1).dropLast
  let items := splitTopLevelItems inner
  items.foldl
    (fun acc item =>
      let trimmed := jsTrim item
      match trimmed with
      | [] => acc
      | c :: _ =>
        if c = obChar then
          let (es, ws) := parseEntryObject trimmed
          (acc.1 ++ es, acc.2 ++ ws)
        else if c = '[' then
          (acc.1, acc.2 ++ ["Nested array entries are not supported, skipping."])
        else
          match parseStringLiteral trimmed with
          | some dir => (acc.1 ++ [{ dir := String.mk dir }], acc.2)
          | none =>
            (acc.1, acc.2 ++ ["Array entry is not a string/object literal, skipping."]))
    ([], [])

/-- Source `parseEntriesBlock` (lines 399-417). -/
def parseEntriesBlock (block : Text) : List MokupEntry × List String :=
  match jsTrim block with
  | [] => ([], [])
  | c :: rest =>
    if c = '[' then parseEntriesArray (c :: rest)
    else if c = obChar then parseEntryObject (c :: rest)
    else if isQuoteChar c then
      match parseStringLiteral (c :: rest) with
      | some dir => ([{ dir := String.mk dir }], [])
      | none => ([], [])
    else ([], ["Entries value is not a literal array/object/string, skipped."])

/-- The fallback section of `parseEntriesFromViteConfig` (lines 27-42) when
the tree parser is unavailable and no plugin-option block matches: every
`entries` block found by the text scan, parsed in order. -/
def fallbackScanEntries (content : String) : List MokupEntry × List String :=
  (findEntriesBlocks content.toList).foldl
    (fun acc b =>
      let (es, ws) := parseEntriesBlock b
      (acc.1 ++ es, acc.2 ++ ws))
    ([], [])

end Mokup

namespace Mokup

/-! ## Spec-side definitions

These follow the specification's wording, for comparison with the source
embeddings above. -/

/-- The spec's selection policy for the Function Return Analyzer, phrased
over the collected return list: the last object-literal return wins; failing
that the last identifier return is resolved through the environment; failing
that the last return of any kind is evaluated generically; a
single-expression body is evaluated directly in the function-scope
environment. -/
def specFindReturn (f : Nat) (params : List (Option String)) (body : FnBody)
    (env : Env) (pv : Option (List Value)) : Option (Option Value) :=
  let localEnv := createFunctionEnv params body env pv
  match body with
  | .expr e => (evalV f e localEnv).map some
  | .block stmts =>
    let returns := creStmts stmts
    let lastObject :=
      (returns.filterMap (fun e =>
        match e with
        | .objL ps => some ps
        | _ => none)).getLast?
    let lastIdentifier :=
      (returns.filterMap (fun e =>
        match e with
        | .ident n => some n
        | _ => none)).getLast?
    match lastObject with
    | some props =>
      (evalObjectLiteral f props localEnv []).map (fun l => some (.obj l))
    | none =>
      match lastIdentifier with
      | some name =>
        (match envGet localEnv name with
         | some (.evalue v) => some (some v)
         | some (.eexpr e) => (evalV f e localEnv).map some
         | none =>
           match returns.getLast? with
           | some e => (evalV f e localEnv).map some
           | none => some none)
      | none =>
        match returns.getLast? with
        | some e => (evalV f e localEnv).map some
        | none => some none

/-- The spec's reading of template interpolation: every span evaluated and
stringified independently. -/
def specSpanStrings (f : Nat) (spans : List (Expr × String)) (env : Env) :
    Option (List String) :=
  match spans with
  | [] => some []
  | (e, lit) :: rest => do
    let v ← evalV f e env
    let xs ← specSpanStrings f rest env
    some ((spanPiece v ++ lit) :: xs)

/-- The spec's reading of the whole template: the head chunk followed by the
stringified spans joined with their literal chunks. -/
def specTemplate (f : Nat) (head : String) (spans : List (Expr × String))
    (env : Env) : Option String :=
  (specSpanStrings f spans env).map (fun pieces => head ++ pieces.foldr (· ++ ·) "")

/-- Two top-level `const` declarations referencing each other
(`const a = b; const b = a`), the input on which the evaluator's identifier
resolution recurses forever. -/
def cyclicStmts : List Stmt :=
  [.varStmt true [(some "a", some (.ident "b"))],
   .varStmt true [(some "b", some (.ident "a"))]]

def cyclicEnv : Env :=
  [("a", .eexpr (.ident "b")), ("b", .eexpr (.ident "a"))]

/-- The `Array.from` callee. -/
def arrayFromCallee : Expr := .propAccess (.ident "Array") "from"

/-- `{ length: n }` as a length argument. -/
def lenObj (n : Nat) : Expr := .objL [.assign (.id "length") (.numL n)]

/-- The per-element producer `(_, i) => ({ index: i })`. -/
def indexProducer : Expr :=
  .fn [some "_", some "i"] (.expr (.objL [.assign (.id "index") (.ident "i")]))

/-- A single-quote string, for building scanner inputs. -/
def sq : String := String.singleton sqChar

/-- The spec's end-to-end scenario 3 text:
`entries: [{dir:'mock', prefix:'/api'}, {dir:'mocks/user'}]`. -/
def entriesScenarioText : String :=
  "entries: [" ++ "\x7b" ++ "dir:" ++ sq ++ "mock" ++ sq ++ ", prefix:" ++ sq ++ "/api" ++ sq
    ++ "\x7d" ++ ", " ++ "\x7b" ++ "dir:" ++ sq ++ "mocks/user" ++ sq ++ "\x7d" ++ "]"

end Mokup

namespace Mokup

/-! ## Shared lemmas -/

theorem getLast?_cons_or {α : Type} (a : α) (l : List α) :
    (a :: l).getLast? = l.getLast?.or (some a) := by
  induction l generalizing a with
  | nil => simp
  | cons b bs ih => rw [List.getLast?_cons_cons, ih b]; cases bs.getLast? <;> simp [Option.or]

theorem or_some_or {α : Type} (x : Option α) (a : α) (y : Option α) :
    (x.or (some a)).or y = x.or (some a) := by
  cases x <;> rfl

theorem some_or_eq {α : Type} (a : α) (y : Option α) : (some a).or y = some a := rfl

theorem selectReturns_go (l : List Expr)
    (acc : Option (List ObjProp) × Option String × Option Expr) :
    l.foldl
      (fun acc e =>
        match e with
        | .objL ps => (some ps, acc.2.1, some e)
        | .ident n => (acc.1, some n, some e)
        | _ => (acc.1, acc.2.1, some e))
      acc =
      ((l.filterMap (fun e =>
          match e with
          | .objL ps => some ps
          | _ => none)).getLast?.or acc.1,
       (l.filterMap (fun e =>
          match e with
          | .ident n => some n
          | _ => none)).getLast?.or acc.2.1,
       l.getLast?.or acc.2.2) := by
  induction l generalizing acc with
  | nil => simp
  | cons e es ih =>
    rw [List.foldl_cons, ih]
    cases e <;>
      simp only [List.filterMap_cons, getLast?_cons_or, Option.or_assoc, or_some_or,
        Option.or_none, Option.none_or, some_or_eq]

theorem selectReturns_eq (l : List Expr) :
    selectReturns l =
      ((l.filterMap (fun e =>
          match e with
          | .objL ps => some ps
          | _ => none)).getLast?,
       (l.filterMap (fun e =>
          match e with
          | .ident n => some n
          | _ => none)).getLast?,
       l.getLast?) := by
  rw [selectReturns, selectReturns_go]
  simp [Option.or_none]

theorem asNumV_eq_some {v : Value} {n : JNum} (h : asNumV v = some n) : v = .num n := by
  cases v <;> simp_all [asNumV]

theorem JNum.add_eq_nan {a b : JNum} (h : a.add b = .nan) : a = .nan ∨ b = .nan := by
  cases a <;> cases b <;> simp_all [JNum.add]

theorem JNum.sub_eq_nan {a b : JNum} (h : a.sub b = .nan) : a = .nan ∨ b = .nan := by
  cases a <;> cases b <;> simp_all [JNum.sub]

theorem JNum.mul_eq_nan {a b : JNum} (h : a.mul b = .nan) : a = .nan ∨ b = .nan := by
  cases a <;> cases b <;> simp_all [JNum.mul]

theorem JNum.div_eq_nan {a b : JNum} (h : a.div b = .nan) : a = .nan ∨ b = .nan := by
  cases a <;> cases b <;> simp_all [JNum.div]

theorem JNum.mod_eq_nan {a b : JNum} (h : a.mod b = .nan) :
    a = .nan ∨ b = .nan ∨ b = .fin 0 := by
  cases a with
  | nan => exact Or.inl rfl
  | fin x =>
    cases b with
    | nan => exact Or.inr (Or.inl rfl)
    | fin y =>
      refine Or.inr (Or.inr ?_)
      by_cases hy : y = 0
      · simp [hy]
      · simp [JNum.mod, hy] at h

/-! ## Claim theorems -/

/-- C1: for the source text `export default { ok: true, count: 1 + 2 }`,
value extraction (`parseTsExportedObject`) succeeds with the value
`{ok: true, count: 3}`: the object literal reduces property-wise and `+` on
two numeric literals reduces to their exact sum. -/
theorem C1_export_default_extraction :
    parseTsExportedObject 10
      [.exportAssign (.objL
        [.assign (.id "ok") (.boolL true),
         .assign (.id "count") (.binary (.numL 1) .plus (.numL 2))])] =
      some (some (.obj [("ok", .bool true), ("count", .num (.fin 3))],
        "parsed export default")) := by
  simp [parseTsExportedObject, parseExportLoop, collectConstExpressions,
    extractObjectFromExpression, evalObjectLiteral, evalV, evalBinaryExpression,
    evalBinaryOp, jsStrictEq, marker, JNum.beqNum, asNumV, isStrV, JNum.add,
    assocSet, getPropName, envSet]
  norm_num

/-- C2: the Function Return Analyzer (`findReturnedObject`) is exactly the
spec's selection policy: a single-expression body evaluates directly in the
function-scope environment; a block body collects returns without descending
into nested function bodies, then the last object-literal return wins, then
the last identifier return resolved through the environment, then the last
return of any kind evaluated generically. -/
theorem C2_find_returned_object_selection (f : Nat) (params : List (Option String))
    (body : FnBody) (env : Env) (pv : Option (List Value)) :
    findReturnedObject (f + 1) params body env pv = specFindReturn f params body env pv := by
  cases body with
  | expr e => simp [findReturnedObject, specFindReturn]
  | block stmts => simp [findReturnedObject, specFindReturn, selectReturns_eq]

/-- C3: on two `const` declarations that reference each other, `evalValue`
never finishes at any recursion budget — the fuel-indexed approximation is
`none` for every fuel, i.e. the source (which has no cutoff) recurses
unboundedly, contrary to the claimed bounded recursion depth. -/
theorem C3_cyclic_const_divergence :
    collectConstExpressions cyclicStmts = cyclicEnv ∧
    ∀ f, evalV f (.ident "a") cyclicEnv = none ∧ evalV f (.ident "b") cyclicEnv = none := by
  constructor
  · rfl
  · intro f
    induction f with
    | zero => exact ⟨by simp [evalV], by simp [evalV]⟩
    | succ n ih =>
      refine ⟨?_, ?_⟩
      · have h : evalV (n + 1) (.ident "a") cyclicEnv = evalV n (.ident "b") cyclicEnv := by
          simp [evalV, envGet, assocGet, cyclicEnv]
        rw [h]; exact ih.2
      · have h : evalV (n + 1) (.ident "b") cyclicEnv = evalV n (.ident "a") cyclicEnv := by
          simp [evalV, envGet, assocGet, cyclicEnv]
        rw [h]; exact ih.1

/-- C4 counterexample: the template `` `a${foo.bar}` `` has a span that
evaluates to the unresolved marker, yet the whole template reduces to the
partially interpolated string `"a<expr>"`, not to the marker — refuting the
claim that an unresolved span forces the entire template to the marker. -/
theorem C4_counterexample_partial_template :
    evalV 5 (.tmpl "a" [(.propAccess (.ident "foo") "bar", "")]) [] =
      some (.str "a<expr>") ∧ Value.str "a<expr>" ≠ marker := by
  constructor
  · simp [evalV, evalTemplate, spanPiece, jsStrictEq, marker]
  · simp [marker]

/-- C4 amended: each span is evaluated and stringified (objects
JSON-stringified inline); a span that evaluates to the unresolved marker
contributes the marker text `"<expr>"` inline, so the template reduces to a
concatenation of the stringified spans — a partially interpolated string —
never collapsing to the marker. -/
theorem C4_template_inline_markers (f : Nat) (spans : List (Expr × String))
    (head : String) (env : Env) :
    evalTemplate (f + 1) head spans env = specTemplate f head spans env := by
  induction spans generalizing head with
  | nil => simp [evalTemplate, specTemplate, specSpanStrings]
  | cons p rest ih =>
    obtain ⟨e, lit⟩ := p
    cases h : evalV f e env with
    | none => simp [evalTemplate, specTemplate, specSpanStrings, h]
    | some v =>
      rw [show evalTemplate (f + 1) head ((e, lit) :: rest) env =
          evalTemplate (f + 1) (head ++ spanPiece v ++ lit) rest env by
        simp [evalTemplate, h], ih]
      simp only [specTemplate, specSpanStrings, h, Option.bind_some, Option.some_bind]
      cases hm : specSpanStrings f rest env with
      | none => simp [hm]
      | some pieces => simp [hm, String.append_assoc]

/-- C5 counterexample: `1 % 0` evaluates to NaN, not to the unresolved
marker — refuting the claim that binary evaluation never silently produces
NaN. -/
theorem C5_counterexample_modulo_zero_nan :
    evalV 5 (.binary (.numL 1) .percent (.numL 0)) [] = some (.num .nan) ∧
    Value.num .nan ≠ marker := by
  constructor
  · simp [evalV, evalBinaryExpression, evalBinaryOp, jsStrictEq, marker,
      JNum.beqNum, asNumV, isStrV, JNum.mod]
  · simp [marker]

/-- C5 amended: the binary-operator switch yields the marker on any
marker operand, on any unsupported operator, and on division whose right
operand is zero; the remainder operator has no such zero guard, and a
finite left operand with a zero right operand silently produces NaN. The
switch is a total function, so it never throws. (Whether `Infinity` can be
produced concerns IEEE overflow and Infinity-valued operands, which the
exact-rational embedding does not represent; that clause of the original
claim is left unsettled here, not asserted.) -/
theorem C5_binary_marker_discipline :
    (∀ (op : BinOp) (l r : Value),
        jsStrictEq l marker = true ∨ jsStrictEq r marker = true →
        evalBinaryOp op l r = marker)
    ∧ (∀ l r : Value, evalBinaryOp .otherB l r = marker)
    ∧ (∀ l : Value, evalBinaryOp .slash l (.num (.fin 0)) = marker)
    ∧ (∀ a : ℚ, evalBinaryOp .percent (.num (.fin a)) (.num (.fin 0)) = .num .nan) := by
  refine ⟨?_, ?_, ?_, ?_⟩
  · intro op l r h
    rcases h with h | h <;> simp [evalBinaryOp, h]
  · intro l r
    unfold evalBinaryOp
    split <;> rfl
  · intro l
    unfold evalBinaryOp
    split
    · rfl
    · cases hL : asNumV l <;> simp [hL, asNumV, jsStrictEq, JNum.beqNum]
  · intro a
    simp [evalBinaryOp, asNumV, jsStrictEq, marker, JNum.beqNum, JNum.mod]

/-- C5 witness: the amended theorem at the concrete input `5 % 0`, whose
result is NaN. -/
theorem C5_witness :
    evalBinaryOp .percent (.num (.fin 5)) (.num (.fin 0)) = .num .nan :=
  C5_binary_marker_discipline.2.2.2 5

end Mokup

namespace Mokup

theorem producer_run (idx : Nat) :
    findReturnedObject 16 [some "_", some "i"]
      (.expr (.objL [.assign (.id "index") (.ident "i")])) []
      (some [.undef, .num (.fin idx)]) =
      some (some (.obj [("index", .num (.fin idx))])) := by
  simp [findReturnedObject, createFunctionEnv, bindParams, envSet, assocSet,
    evalV, evalObjectLiteral, envGet, assocGet, getPropName]

theorem arrayFromLoop_producer (c idx : Nat) :
    arrayFromLoop 17 c idx
      (some (.fn [some "_", some "i"]
        (.expr (.objL [.assign (.id "index") (.ident "i")])))) [] =
      some ((List.range' idx c).map
        (fun (i : Nat) => Value.obj [("index", .num (.fin (i : ℚ)))])) := by
  induction c generalizing idx with
  | zero => simp [arrayFromLoop, List.range']
  | succ m ih =>
    rw [List.range'_succ, List.map_cons]
    simp only [arrayFromLoop, producer_run, ih, Option.bind_some, Option.some_bind,
      Option.getD_some]
    rfl

theorem arrayFromLoop_noProducer (c idx : Nat) :
    arrayFromLoop 17 c idx none [] = some (List.replicate c .null) := by
  induction c generalizing idx with
  | zero => simp [arrayFromLoop]
  | succ m ih => simp [arrayFromLoop, ih, List.replicate_succ]

/-- C6: an `Array.from` call whose length argument statically resolves to
`n` and whose producer is `(_, i) => ({index: i})` yields an array of length
`n` whose `i`-th element is `{index: i}` (the producer is analyzed once per
index with the index bound as the second parameter); with no producer every
element is `null`; and a length that cannot be statically determined yields
the empty array rather than an error. -/
theorem C6_array_from_semantics :
    (∀ n : Nat,
      evalV 20 (.call arrayFromCallee [lenObj n, indexProducer]) [] =
        some (.arr ((List.range n).map
          (fun (i : Nat) => Value.obj [("index", .num (.fin (i : ℚ)))]))))
    ∧ (∀ n : Nat,
      evalV 20 (.call arrayFromCallee [lenObj n]) [] =
        some (.arr (List.replicate n .null)))
    ∧ (∀ (f : Nat) (e : Expr) (rest : List Expr) (env : Env),
      extractArrayFromLength f (some e) env = some none →
      evalV (f + 3) (.call arrayFromCallee (e :: rest)) env = some (.arr [])) := by
  refine ⟨?_, ?_, ?_⟩
  · intro n
    rw [List.range_eq_range']
    simp [evalV, evalCallExpression, extractDefineHandlerReturn, evalArrayFromCall,
      isArrayFromCall, arrayFromCallee, extractArrayFromLength, lengthScan, lenObj,
      indexProducer, getPropName, loopCount, Nat.ceil_natCast, arrayFromLoop_producer]
  · intro n
    simp [evalV, evalCallExpression, extractDefineHandlerReturn, evalArrayFromCall,
      isArrayFromCall, arrayFromCallee, extractArrayFromLength, lengthScan, lenObj,
      getPropName, loopCount, Nat.ceil_natCast, arrayFromLoop_noProducer]
  · intro f e rest env h
    simp [evalV, evalCallExpression, extractDefineHandlerReturn, evalArrayFromCall,
      isArrayFromCall, arrayFromCallee, h]

/-- C6 witness: an unbound identifier as length argument is not statically
determined, and the call reduces to the empty array. -/
theorem C6_witness :
    evalV (5 + 3) (.call arrayFromCallee [.ident "n"]) [] = some (.arr []) :=
  C6_array_from_semantics.2.2 5 (.ident "n") [] []
    (by simp [extractArrayFromLength, evalV, envGet, assocGet, asFinite])

end Mokup

namespace Mokup

mutual

theorem jvalBEq_iff : (a b : JVal) → (jvalBEq a b = true ↔ a = b)
  | a, b => by
    cases a <;> cases b <;>
      simp only [jvalBEq, decide_eq_true_eq, JVal.str.injEq, JVal.num.injEq,
        JVal.bool.injEq, JVal.arr.injEq, JVal.obj.injEq, reduceCtorEq,
        Bool.false_eq_true, iff_self, iff_false, not_false_eq_true]
    case arr.arr l1 l2 => exact jvalListBEq_iff l1 l2
    case obj.obj l1 l2 => exact jvalObjBEq_iff l1 l2

theorem jvalListBEq_iff : (a b : List JVal) → (jvalListBEq a b = true ↔ a = b)
  | [], [] => by simp [jvalListBEq]
  | [], _ :: _ => by simp [jvalListBEq]
  | _ :: _, [] => by simp [jvalListBEq]
  | x :: xs, y :: ys => by
    have h1 := jvalBEq_iff x y
    have h2 := jvalListBEq_iff xs ys
    simp [jvalListBEq, h1, h2]

theorem jvalObjBEq_iff : (a b : List (String × JVal)) → (jvalObjBEq a b = true ↔ a = b)
  | [], [] => by simp [jvalObjBEq]
  | [], _ :: _ => by simp [jvalObjBEq]
  | _ :: _, [] => by simp [jvalObjBEq]
  | (k1, v1) :: xs, (k2, v2) :: ys => by
    have h1 := jvalBEq_iff v1 v2
    have h2 := jvalObjBEq_iff xs ys
    simp [jvalObjBEq, h1, h2, and_assoc]

end

theorem jvalBEq_false_of_ne {x y : JVal} (h : x ≠ y) : jvalBEq x y = false := by
  rw [Bool.eq_false_iff]
  exact fun hc => h ((jvalBEq_iff x y).1 hc)

theorem jsSetDedup_mem : ∀ (l : List JVal) (a : JVal), a ∈ jsSetDedup l ↔ a ∈ l
  | [], a => by simp [jsSetDedup]
  | x :: xs, a => by
    rw [jsSetDedup]
    have ih := jsSetDedup_mem (xs.filter (fun y => !jvalBEq x y)) a
    simp only [List.mem_cons, ih, List.mem_filter, Bool.not_eq_eq_eq_not, Bool.not_true]
    constructor
    · rintro (rfl | ⟨ha, _⟩)
      · exact Or.inl rfl
      · exact Or.inr ha
    · rintro (rfl | ha)
      · exact Or.inl rfl
      · by_cases hx : a = x
        · exact Or.inl hx
        · exact Or.inr ⟨ha, jvalBEq_false_of_ne (fun hc => hx hc.symm)⟩
termination_by l _ => l.length
decreasing_by
  simp only [List.length_cons]
  exact Nat.lt_succ_of_le (List.length_filter_le _ _)

theorem jsSetDedup_sublist : ∀ l : List JVal, (jsSetDedup l).Sublist l
  | [] => by simp [jsSetDedup]
  | x :: xs => by
    rw [jsSetDedup]
    exact ((jsSetDedup_sublist (xs.filter (fun y => !jvalBEq x y))).trans
      (List.filter_sublist xs)).cons₂ x
termination_by l => l.length
decreasing_by
  simp only [List.length_cons]
  exact Nat.lt_succ_of_le (List.length_filter_le _ _)

theorem jsSetDedup_nodup : ∀ l : List JVal, (jsSetDedup l).Nodup
  | [] => by simp [jsSetDedup]
  | x :: xs => by
    rw [jsSetDedup]
    refine List.Nodup.cons ?_ (jsSetDedup_nodup (xs.filter (fun y => !jvalBEq x y)))
    intro hmem
    have hm := (jsSetDedup_mem _ x).1 hmem
    have hb := (List.mem_filter.1 hm).2
    simp [(jvalBEq_iff x x).2 rfl] at hb
termination_by l => l.length
decreasing_by
  all_goals simp only [List.length_cons]
  all_goals exact Nat.lt_succ_of_le (List.length_filter_le _ _)

theorem assocGet_cons {α : Type} (a : String × α) (t : List (String × α)) (k : String) :
    assocGet (a :: t) k = if a.1 = k then some a.2 else assocGet t k := by
  by_cases h : a.1 = k <;> simp [assocGet, List.find?, h]

theorem assocGet_eq_none_of_not_mem {α : Type} {t : List (String × α)} {k : String}
    (h : k ∉ t.map Prod.fst) : assocGet t k = none := by
  induction t with
  | nil => rfl
  | cons a t ih =>
    simp only [List.map_cons, List.mem_cons] at h
    push_neg at h
    rw [assocGet_cons, if_neg (fun hc => h.1 hc.symm)]
    exact ih h.2

theorem assocGet_map_update_ne {α : Type} (t : List (String × α)) (k k' : String) (v : α)
    (h : k' ≠ k) :
    assocGet (t.map (fun p => if p.1 = k then (k, v) else p)) k' = assocGet t k' := by
  induction t with
  | nil => rfl
  | cons a t ih =>
    by_cases hak : a.1 = k
    · simp only [List.map_cons, hak, if_true, ite_true]
      rw [assocGet_cons, assocGet_cons, hak]
      rw [if_neg (fun hc => h hc.symm), if_neg (fun hc => h hc.symm)]
      exact ih
    · simp only [List.map_cons, hak, if_false, ite_false]
      rw [assocGet_cons, assocGet_cons]
      by_cases hk' : a.1 = k'
      · simp [hk']
      · simp [hk', ih]

theorem assocGet_map_update_self {α : Type} (t : List (String × α)) (k : String) (v : α)
    (hmem : t.any (fun p => p.1 = k) = true) :
    assocGet (t.map (fun p => if p.1 = k then (k, v) else p)) k = some v := by
  induction t with
  | nil => simp at hmem
  | cons a t ih =>
    by_cases hak : a.1 = k
    · simp only [List.map_cons, hak, if_true, ite_true]
      rw [assocGet_cons]
      simp
    · simp only [List.any_cons] at hmem
      simp only [List.map_cons, hak, if_false, ite_false]
      rw [assocGet_cons, if_neg hak]
      refine ih ?_
      rcases Bool.or_eq_true_iff.1 hmem with hh | hh
      · exact absurd (of_decide_eq_true hh) hak
      · exact hh

theorem assocGet_not_any {α : Type} (t : List (String × α)) (k : String)
    (h : t.any (fun p => p.1 = k) = false) : assocGet t k = none := by
  induction t with
  | nil => rfl
  | cons a t ih =>
    simp only [List.any_cons, Bool.or_eq_false_iff, decide_eq_false_iff_not] at h
    rw [assocGet_cons, if_neg h.1]
    exact ih (by simpa using h.2)

theorem assocGet_append {α : Type} (l1 l2 : List (String × α)) (k : String) :
    assocGet (l1 ++ l2) k = (assocGet l1 k).or (assocGet l2 k) := by
  induction l1 with
  | nil => simp [assocGet, Option.none_or]
  | cons a t ih =>
    rw [List.cons_append, assocGet_cons, assocGet_cons]
    by_cases h : a.1 = k <;> simp [h, ih, Option.or]

theorem assocGet_assocSet {α : Type} (l : List (String × α)) (k k' : String) (v : α) :
    assocGet (assocSet l k v) k' = if k' = k then some v else assocGet l k' := by
  by_cases hany : l.any (fun p => p.1 = k) = true
  · rw [assocSet, if_pos hany]
    by_cases hk : k' = k
    · subst hk; rw [if_pos rfl]
      exact assocGet_map_update_self l k' v hany
    · rw [if_neg hk]
      exact assocGet_map_update_ne l k k' v hk
  · rw [assocSet, if_neg hany, assocGet_append, assocGet_cons]
    by_cases hk : k' = k
    · subst hk
      rw [assocGet_not_any l k' (Bool.eq_false_iff.2 hany)]
      simp [Option.or]
    · rw [if_neg (fun hc : k = k' => hk hc.symm), if_neg hk]
      simp [assocGet, Option.or_none]

theorem assocGet_objSpread (a b : List (String × JVal)) (k : String)
    (hnd : (b.map Prod.fst).Nodup) :
    assocGet (objSpread a b) k = (assocGet b k).or (assocGet a k) := by
  induction b generalizing a with
  | nil => simp [objSpread, assocGet, Option.none_or]
  | cons p t ih =>
    obtain ⟨k1, v1⟩ := p
    simp only [List.map_cons, List.nodup_cons] at hnd
    rw [show objSpread a ((k1, v1) :: t) = objSpread (assocSet a k1 v1) t from rfl,
      ih _ hnd.2, assocGet_cons]
    by_cases hk : k = k1
    · subst hk
      rw [assocGet_eq_none_of_not_mem hnd.1, assocGet_assocSet, if_pos rfl]
      simp [Option.or]
    · rw [assocGet_assocSet, if_neg hk, if_neg (fun hc : k1 = k => hk hc.symm)]

theorem merge_props (b e : SchemaWithFlags)
    (hb : isObjectSchema b.schema = true) (he : isObjectSchema e.schema = true) :
    jGetObjProps (mergeObjectSchemas b e).schema =
      objSpread (jGetObjProps b.schema) (jGetObjProps e.schema) := by
  unfold mergeObjectSchemas
  rw [if_neg (by simp [hb, he])]
  by_cases hr : (jGetArr b.schema "required" ++ jGetArr e.schema "required").length > 0
  · simp only [hr, if_true, ite_true]
    simp [jGetObjProps, assocGet_append, assocGet_cons, assocGet]
  · simp only [hr, if_false, ite_false]
    simp [jGetObjProps, assocGet_cons, assocGet]

theorem merge_required (b e : SchemaWithFlags)
    (hb : isObjectSchema b.schema = true) (he : isObjectSchema e.schema = true) :
    jGetArr (mergeObjectSchemas b e).schema "required" =
      jsSetDedup (jGetArr b.schema "required" ++ jGetArr e.schema "required") := by
  unfold mergeObjectSchemas
  rw [if_neg (by simp [hb, he])]
  by_cases hr : (jGetArr b.schema "required" ++ jGetArr e.schema "required").length > 0
  · simp only [hr, if_true, ite_true]
    simp [jGetArr, assocGet_append, assocGet_cons, assocGet]
  · simp only [hr, if_false, ite_false]
    have hnil : jGetArr b.schema "required" ++ jGetArr e.schema "required" = [] := by
      simpa using Nat.eq_zero_of_not_pos hr
    rw [hnil]
    simp [jGetArr, assocGet_cons, assocGet, jsSetDedup]

theorem zod_extend_dispatch (f : Nat) (target : Expr) (props : List ObjProp)
    (rest : List Expr) (env : ZEnv) (b sh : SchemaWithFlags)
    (h : schemaFromZodExpression f target env = some (some b))
    (hs : schemaFromZodObjectShape f props env = some sh) :
    schemaFromZodExpression (f + 2)
        (.call (.propAccess target "extend") (.objL props :: rest)) env =
      some (some (mergeObjectSchemas b sh)) := by
  simp [schemaFromZodExpression, schemaFromZodMethod, h,
    show zodShapeGo f props env [] [] = some sh from hs]

theorem zod_merge_dispatch (f : Nat) (target other : Expr) (rest : List Expr)
    (env : ZEnv) (b o : SchemaWithFlags)
    (hb : schemaFromZodExpression f target env = some (some b))
    (ho : schemaFromZodExpression f other env = some (some o)) :
    schemaFromZodExpression (f + 2)
        (.call (.propAccess target "merge") (other :: rest)) env =
      some (some (mergeObjectSchemas b o)) := by
  simp [schemaFromZodExpression, schemaFromZodMethod, hb, ho]

/-- C7: `.extend(shapeObj)` and `.merge(otherSchemaExpr)` dispatch to the
object-schema merge, which, when both sides are object schemas, takes the
key-wise union of `properties` with the extension/other winning on
collision, and the order-preserving de-duplicated union of both `required`
lists; when either side is not an object schema the merge returns the base
fragment unchanged. -/
theorem C7_object_schema_merge :
    (∀ b e : SchemaWithFlags,
        isObjectSchema b.schema = false ∨ isObjectSchema e.schema = false →
        mergeObjectSchemas b e = b)
    ∧ (∀ b e : SchemaWithFlags,
        isObjectSchema b.schema = true → isObjectSchema e.schema = true →
        ((jGetObjProps e.schema).map Prod.fst).Nodup →
        (∀ k, assocGet (jGetObjProps (mergeObjectSchemas b e).schema) k =
            (assocGet (jGetObjProps e.schema) k).or (assocGet (jGetObjProps b.schema) k))
        ∧ (jGetArr (mergeObjectSchemas b e).schema "required").Sublist
            (jGetArr b.schema "required" ++ jGetArr e.schema "required")
        ∧ (∀ x, x ∈ jGetArr (mergeObjectSchemas b e).schema "required" ↔
            x ∈ jGetArr b.schema "required" ++ jGetArr e.schema "required")
        ∧ (jGetArr (mergeObjectSchemas b e).schema "required").Nodup)
    ∧ (∀ (f : Nat) (target : Expr) (props : List ObjProp) (rest : List Expr)
        (env : ZEnv) (b sh : SchemaWithFlags),
        schemaFromZodExpression f target env = some (some b) →
        schemaFromZodObjectShape f props env = some sh →
        schemaFromZodExpression (f + 2)
            (.call (.propAccess target "extend") (.objL props :: rest)) env =
          some (some (mergeObjectSchemas b sh)))
    ∧ (∀ (f : Nat) (target other : Expr) (rest : List Expr) (env : ZEnv)
        (b o : SchemaWithFlags),
        schemaFromZodExpression f target env = some (some b) →
        schemaFromZodExpression f other env = some (some o) →
        schemaFromZodExpression (f + 2)
            (.call (.propAccess target "merge") (other :: rest)) env =
          some (some (mergeObjectSchemas b o))) := by
  refine ⟨?_, ?_, ?_, ?_⟩
  · intro b e h
    rcases h with h | h <;> (unfold mergeObjectSchemas; rw [if_pos (by simp [h])])
  · intro b e hb he hnd
    refine ⟨?_, ?_, ?_, ?_⟩
    · intro k
      rw [merge_props b e hb he, assocGet_objSpread _ _ _ hnd]
    · rw [merge_required b e hb he]
      exact jsSetDedup_sublist _
    · intro x
      rw [merge_required b e hb he]
      exact jsSetDedup_mem _ x
    · rw [merge_required b e hb he]
      exact jsSetDedup_nodup _
  · exact zod_extend_dispatch
  · exact zod_merge_dispatch

/-- C7 witness: the merge of `{id: string}` (required `id`) with
`{f: string}` (required `f`) has a duplicate-free required list. -/
theorem C7_witness :
    (jGetArr (mergeObjectSchemas
        { schema := [("type", JVal.str "object"),
                     ("properties", JVal.obj [("id", JVal.obj [("type", JVal.str "string")])]),
                     ("required", JVal.arr [JVal.str "id"])] }
        { schema := [("type", JVal.str "object"),
                     ("properties", JVal.obj [("f", JVal.obj [("type", JVal.str "string")])]),
                     ("required", JVal.arr [JVal.str "f"])] }).schema "required").Nodup :=
  (C7_object_schema_merge.2.1
      { schema := [("type", JVal.str "object"),
                   ("properties", JVal.obj [("id", JVal.obj [("type", JVal.str "string")])]),
                   ("required", JVal.arr [JVal.str "id"])] }
      { schema := [("type", JVal.str "object"),
                   ("properties", JVal.obj [("f", JVal.obj [("type", JVal.str "string")])]),
                   ("required", JVal.arr [JVal.str "f"])] }
      (by rfl) (by rfl) (by decide)).2.2.2

/-- C9: the Fallback Text Scanner applied to
`entries: [{dir:'mock', prefix:'/api'}, {dir:'mocks/user'}]` yields exactly
two entries in order — the first with dir `mock` and prefix `/api`, the
second with dir `mocks/user` and no prefix — and no warnings. -/
theorem C9_entries_fallback_scenario :
    fallbackScanEntries entriesScenarioText =
      ([{ dir := "mock", prefixVal := some "/api" },
        { dir := "mocks/user" }], []) := by
  decide

end Mokup

namespace Mokup

/-- C8: for a named type reference other than `Array`/`ReadonlyArray`/
`Record`, the Type-Node Schema Builder first checks the registry of names
declared in the same file — if present it emits a `$ref` fragment at the
conventional schema location and no warning; if unknown it emits the empty
fragment and appends exactly one warning. It is a total function, so it
never throws. -/
theorem C8_typeref_registry_fallback (name : String) (args : List TypeN) (reg : Registry)
    (h1 : name ≠ "Array") (h2 : name ≠ "ReadonlyArray") (h3 : name ≠ "Record") :
    ((∃ s, assocGet reg name = some s) →
      schemaFromTypeNode (.typeRef name args) reg =
        ([("$ref", .str ("#/components/schemas/" ++ name))], []))
    ∧ (assocGet reg name = none →
      schemaFromTypeNode (.typeRef name args) reg =
        ([], ["Unsupported type node: " ++ tnText (.typeRef name args)])) := by
  constructor
  · rintro ⟨s, hs⟩
    simp [schemaFromTypeNode, h1, h2, h3, hs]
  · intro h
    simp [schemaFromTypeNode, h1, h2, h3, h]

/-- C8 witness: the reference `User` found in the registry gives a `$ref`
and no warning; the unknown reference `Ghost` gives the empty fragment and
one warning. -/
theorem C8_witness :
    schemaFromTypeNode (.typeRef "User" []) [("User", [("type", JVal.str "object")])] =
      ([("$ref", .str ("#/components/schemas/" ++ "User"))], []) ∧
    schemaFromTypeNode (.typeRef "Ghost" []) [] =
      ([], ["Unsupported type node: " ++ tnText (.typeRef "Ghost" [])]) := by
  constructor
  · exact (C8_typeref_registry_fallback "User" [] [("User", [("type", JVal.str "object")])]
      (by decide) (by decide) (by decide)).1 ⟨_, rfl⟩
  · exact (C8_typeref_registry_fallback "Ghost" [] []
      (by decide) (by decide) (by decide)).2 rfl

end Mokup

namespace Mokup

theorem assocGet_some_mem {α : Type} {l : List (String × α)} {k : String} {v : α}
    (h : assocGet l k = some v) : k ∈ l.map Prod.fst := by
  induction l with
  | nil => simp [assocGet] at h
  | cons a t ih =>
    rw [assocGet_cons] at h
    by_cases ha : a.1 = k
    · simp [ha]
    · rw [if_neg ha] at h
      simp [ih h]

theorem assocSet_keys_nodup {α : Type} {l : List (String × α)} (k : String) (v : α)
    (h : (l.map Prod.fst).Nodup) : ((assocSet l k v).map Prod.fst).Nodup := by
  by_cases hany : l.any (fun p => p.1 = k) = true
  · rw [assocSet, if_pos hany]
    have hkeys : (l.map (fun p => if p.1 = k then (k, v) else p)).map Prod.fst
        = l.map Prod.fst := by
      rw [List.map_map]
      refine List.map_congr_left ?_
      intro p _
      by_cases hp : p.1 = k
      · simp [Function.comp, hp]
      · simp [Function.comp, hp]
    rw [hkeys]
    exact h
  · rw [assocSet, if_neg hany]
    rw [List.map_append]
    refine List.Nodup.append h (by simp) ?_
    intro a ha hb
    simp only [List.map_cons, List.map_nil, List.mem_singleton] at hb
    subst hb
    simp only [List.mem_map] at ha
    obtain ⟨p, hp, hpk⟩ := ha
    exact hany (List.any_eq_true.2 ⟨p, hp, by simp [hpk]⟩)

theorem foldl_set_lookup_absent {α : Type} :
    ∀ (t : List (String × α)) (init : List (String × α)) (name : String),
    name ∉ t.map Prod.fst →
    assocGet (t.foldl (fun a p => assocSet a p.1 p.2) init) name = assocGet init name := by
  intro t
  induction t with
  | nil => intro init name _; rfl
  | cons p t ih =>
    intro init name hmem
    simp only [List.map_cons, List.mem_cons] at hmem
    push_neg at hmem
    rw [List.foldl_cons, ih _ name hmem.2, assocGet_assocSet,
      if_neg (fun hc => hmem.1 hc)]

theorem foldl_set_lookup {α : Type} :
    ∀ (zs : List (String × α)) (init : List (String × α)) (name : String) (s : α),
    (zs.map Prod.fst).Nodup → assocGet zs name = some s →
    assocGet (zs.foldl (fun a p => assocSet a p.1 p.2) init) name = some s := by
  intro zs
  induction zs with
  | nil => intro init name s _ hz; simp [assocGet] at hz
  | cons p t ih =>
    intro init name s hnd hz
    obtain ⟨k, v⟩ := p
    simp only [List.map_cons, List.nodup_cons] at hnd
    rw [assocGet_cons] at hz
    by_cases hk : k = name
    · simp only [hk, if_true, ite_true, Option.some.injEq] at hz
      subst hz
      rw [List.foldl_cons, foldl_set_lookup_absent t _ name (hk ▸ hnd.1),
        assocGet_assocSet, if_pos hk.symm]
    · rw [if_neg hk] at hz
      rw [List.foldl_cons]
      exact ih _ name s hnd.2 hz

theorem delete_lookup_self {α : Type} (l : List (String × α)) (k : String) :
    assocGet (assocDelete l k) k = none := by
  refine assocGet_eq_none_of_not_mem ?_
  intro hmem
  simp only [assocDelete, List.mem_map, List.mem_filter] at hmem
  obtain ⟨p, ⟨_, hne⟩, hk⟩ := hmem
  simp [hk] at hne

theorem delete_preserves_none {α : Type} :
    ∀ {l : List (String × α)} {name : String},
    assocGet l name = none → ∀ k, assocGet (assocDelete l k) name = none := by
  intro l
  induction l with
  | nil => intro name _ k; rfl
  | cons a t ih =>
    intro name h k
    rw [assocGet_cons] at h
    by_cases ha : a.1 = name
    · simp [ha] at h
    · rw [if_neg ha] at h
      simp only [assocDelete, List.filter_cons]
      by_cases hk : a.1 = k
      · rw [if_neg (by simp [hk])]
        exact ih h k
      · rw [if_pos (by simp [hk]), assocGet_cons, if_neg ha]
        exact ih h k

theorem fold_delete_pres_none {α : Type} :
    ∀ (zs : List (String × α)) (b : List (String × α)) (name : String),
    assocGet b name = none →
    assocGet (zs.foldl (fun b p => assocDelete b p.1) b) name = none := by
  intro zs
  induction zs with
  | nil => intro b name h; exact h
  | cons p t ih =>
    intro b name h
    rw [List.foldl_cons]
    exact ih _ name (delete_preserves_none h p.1)

theorem fold_delete_mem_none {α : Type} :
    ∀ (zs : List (String × α)) (named : List (String × α)) (name : String),
    name ∈ zs.map Prod.fst →
    assocGet (zs.foldl (fun b p => assocDelete b p.1) named) name = none := by
  intro zs
  induction zs with
  | nil => intro named name h; simp at h
  | cons p t ih =>
    intro named name hmem
    simp only [List.map_cons, List.mem_cons] at hmem
    rw [List.foldl_cons]
    by_cases hk : name = p.1
    · exact fold_delete_pres_none t _ name (hk ▸ delete_lookup_self named p.1)
    · exact ih _ name (hmem.resolve_left hk)

theorem foldl_set_none_skip {α : Type} :
    ∀ (t : List (String × α)) (init : List (String × α)) (name : String),
    assocGet t name = none →
    assocGet (t.foldl (fun a p => assocSet a p.1 p.2) init) name = assocGet init name := by
  intro t
  induction t with
  | nil => intro init name _; rfl
  | cons a t ih =>
    intro init name h
    rw [assocGet_cons] at h
    by_cases ha : a.1 = name
    · simp [ha] at h
    · rw [if_neg ha] at h
      rw [List.foldl_cons, ih _ name h, assocGet_assocSet,
        if_neg (fun hc => ha hc.symm)]

theorem zod_fold_split (zs : List (String × Schema)) (schemas : List (String × Schema))
    (named : Registry) :
    zs.foldl
      (fun (acc : List (String × Schema) × Registry) p =>
        (assocSet acc.1 p.1 p.2, assocDelete acc.2 p.1)) (schemas, named) =
      (zs.foldl (fun a p => assocSet a p.1 p.2) schemas,
       zs.foldl (fun b p => assocDelete b p.1) named) := by
  induction zs generalizing schemas named with
  | nil => rfl
  | cons p t ih => simp [List.foldl_cons, ih]

theorem zodDeclsFold_keys_nodup (f : Nat) :
    ∀ (ds : List (Option String × Option Expr))
      (acc : List (String × Schema) × ZEnv),
    (acc.1.map Prod.fst).Nodup →
    ((ds.foldl
        (fun (acc : List (String × Schema) × ZEnv) d =>
          match d with
          | (some n, some init) =>
            (match schemaFromZodExpression f init acc.2 with
             | some (some parsed) => (assocSet acc.1 n parsed.schema, assocSet acc.2 n parsed)
             | _ => acc)
          | _ => acc)
        acc).1.map Prod.fst).Nodup := by
  intro ds
  induction ds with
  | nil => intro acc h; exact h
  | cons d t ih =>
    intro acc h
    rw [List.foldl_cons]
    refine ih _ ?_
    obtain ⟨n, init⟩ := d
    cases n with
    | none => exact h
    | some n =>
      cases init with
      | none => exact h
      | some init =>
        cases hr : schemaFromZodExpression f init acc.2 with
        | none => simpa [hr] using h
        | some r =>
          cases r with
          | none => simpa [hr] using h
          | some parsed => simpa [hr] using assocSet_keys_nodup n parsed.schema h

theorem mapZod_keys_nodup (f : Nat) :
    ∀ (decls : List TopDecl) (schemas : List (String × Schema)) (env : ZEnv),
    (schemas.map Prod.fst).Nodup →
    ((mapZodSchemasGo f decls schemas env).map Prod.fst).Nodup := by
  intro decls
  induction decls with
  | nil => intro schemas env h; simpa [mapZodSchemasGo] using h
  | cons d rest ih =>
    intro schemas env h
    cases d with
    | varTop ds =>
      rw [mapZodSchemasGo]
      exact ih _ _ (zodDeclsFold_keys_nodup f ds (schemas, env) h)
    | interfaceDecl n m => exact ih _ _ (by simpa [mapZodSchemasGo] using h)
    | typeAlias n ty => exact ih _ _ (by simpa [mapZodSchemasGo] using h)
    | otherTop => exact ih _ _ (by simpa [mapZodSchemasGo] using h)

end Mokup

namespace Mokup

mutual

theorem schemaFromTypeNode_warn :
    ∀ (n : TypeN) (reg : Registry) (w : String),
      w ∈ (schemaFromTypeNode n reg).2 → ∃ t, w = "Unsupported type node: " ++ t
  | .strKw, _, _, hw => by simp [schemaFromTypeNode] at hw
  | .numKw, _, _, hw => by simp [schemaFromTypeNode] at hw
  | .boolKw, _, _, hw => by simp [schemaFromTypeNode] at hw
  | .anyKw, _, _, hw => by simp [schemaFromTypeNode] at hw
  | .unknownKw, _, _, hw => by simp [schemaFromTypeNode] at hw
  | .nullKw, _, _, hw => by simp [schemaFromTypeNode] at hw
  | .objectKw, _, _, hw => by simp [schemaFromTypeNode] at hw
  | .litStr _, _, _, hw => by simp [schemaFromTypeNode] at hw
  | .litNum _, _, _, hw => by simp [schemaFromTypeNode] at hw
  | .litTrue, _, _, hw => by simp [schemaFromTypeNode] at hw
  | .litFalse, _, _, hw => by simp [schemaFromTypeNode] at hw
  | .litOther t, _, w, hw => by
    simp [schemaFromTypeNode] at hw
    exact ⟨_, hw⟩
  | .arrayT el, reg, w, hw => by
    rcases hsn : schemaFromTypeNode el reg with ⟨items, ws⟩
    simp only [schemaFromTypeNode, hsn] at hw
    exact schemaFromTypeNode_warn el reg w (by rw [hsn]; exact hw)
  | .tupleT els, reg, w, hw => by
    rcases hsn : schemaListFromTypeNodes els reg with ⟨items, ws⟩
    simp only [schemaFromTypeNode, hsn] at hw
    exact schemaListFromTypeNodes_warn els reg w (by rw [hsn]; exact hw)
  | .unionT ts1, reg, w, hw => by
    rcases hsn : schemaListFromTypeNodes ts1 reg with ⟨items, ws⟩
    simp only [schemaFromTypeNode, hsn] at hw
    exact schemaListFromTypeNodes_warn ts1 reg w (by rw [hsn]; exact hw)
  | .interT ts1, reg, w, hw => by
    rcases hsn : schemaListFromTypeNodes ts1 reg with ⟨items, ws⟩
    simp only [schemaFromTypeNode, hsn] at hw
    exact schemaListFromTypeNodes_warn ts1 reg w (by rw [hsn]; exact hw)
  | .typeLit members, reg, w, hw => by
    simp only [schemaFromTypeNode] at hw
    exact schemaFromInterface_warn members reg w hw
  | .typeRef refName args, reg, w, hw => by
    by_cases hA : refName = "Array"
    · subst hA
      cases args with
      | nil => simp [schemaFromTypeNode] at hw
      | cons typeArg tail =>
        rcases hsn : schemaFromTypeNode typeArg reg with ⟨items, ws⟩
        simp only [schemaFromTypeNode, hsn] at hw
        exact schemaFromTypeNode_warn typeArg reg w (by rw [hsn]; exact hw)
    · by_cases hR : refName = "ReadonlyArray"
      · subst hR
        cases args with
        | nil => simp [schemaFromTypeNode, hA] at hw
        | cons typeArg tail =>
          rcases hsn : schemaFromTypeNode typeArg reg with ⟨items, ws⟩
          simp only [schemaFromTypeNode, hsn] at hw
          exact schemaFromTypeNode_warn typeArg reg w (by rw [hsn]; exact hw)
      · by_cases hRec : refName = "Record"
        · subst hRec
          cases args with
          | nil => simp [schemaFromTypeNode, hA, hR] at hw
          | cons a tail =>
            cases tail with
            | nil => simp [schemaFromTypeNode, hA, hR] at hw
            | cons valueType t2 =>
              rcases hsn : schemaFromTypeNode valueType reg with ⟨ap, ws⟩
              simp only [schemaFromTypeNode, hsn] at hw
              exact schemaFromTypeNode_warn valueType reg w (by rw [hsn]; exact hw)
        · cases hreg : assocGet reg refName with
          | some s => simp [schemaFromTypeNode, hA, hR, hRec, hreg] at hw
          | none =>
            simp [schemaFromTypeNode, hA, hR, hRec, hreg] at hw
            exact ⟨_, hw⟩
  | .otherT t, _, w, hw => by
    simp [schemaFromTypeNode] at hw
    exact ⟨_, hw⟩
termination_by n _ _ _ => (sizeOf n, 0)

theorem schemaListFromTypeNodes_warn :
    ∀ (nodes : List TypeN) (reg : Registry) (w : String),
      w ∈ (schemaListFromTypeNodes nodes reg).2 → ∃ t, w = "Unsupported type node: " ++ t
  | [], _, _, hw => by simp [schemaListFromTypeNodes] at hw
  | t :: rest, reg, w, hw => by
    rcases h1 : schemaFromTypeNode t reg with ⟨s, ws1⟩
    rcases h2 : schemaListFromTypeNodes rest reg with ⟨ss, ws2⟩
    simp only [schemaListFromTypeNodes, h1, h2, List.mem_append] at hw
    rcases hw with hw | hw
    · exact schemaFromTypeNode_warn t reg w (by rw [h1]; exact hw)
    · exact schemaListFromTypeNodes_warn rest reg w (by rw [h2]; exact hw)
termination_by nodes _ _ _ => (sizeOf nodes, 0)

theorem schemaFromInterface_warn :
    ∀ (members : List Member) (reg : Registry) (w : String),
      w ∈ (schemaFromInterface members reg).2 → ∃ t, w = "Unsupported type node: " ++ t
  | members, reg, w, hw => by
    rcases hg : interfaceMembersGo members reg with ⟨props, req, ws⟩
    simp only [schemaFromInterface, hg] at hw
    exact interfaceMembersGo_warn members reg w (by rw [hg]; exact hw)
termination_by members _ _ _ => (sizeOf members, 1)

theorem interfaceMembersGo_warn :
    ∀ (members : List Member) (reg : Registry) (w : String),
      w ∈ (interfaceMembersGo members reg).2.2 → ∃ t, w = "Unsupported type node: " ++ t
  | [], _, _, hw => by simp [interfaceMembersGo] at hw
  | .propSig name question ty :: rest, reg, w, hw => by
    cases name with
    | none =>
      simp only [interfaceMembersGo] at hw
      exact interfaceMembersGo_warn rest reg w hw
    | some pn =>
      cases ty with
      | none =>
        simp only [interfaceMembersGo] at hw
        exact interfaceMembersGo_warn rest reg w hw
      | some tyN =>
        cases hk : getPropName pn with
        | none =>
          simp only [interfaceMembersGo, hk] at hw
          exact interfaceMembersGo_warn rest reg w hw
        | some key =>
          rcases h1 : schemaFromTypeNode tyN reg with ⟨s, ws1⟩
          rcases h2 : interfaceMembersGo rest reg with ⟨props, req, ws2⟩
          simp only [interfaceMembersGo, hk, h1, h2, List.mem_append] at hw
          rcases hw with hw | hw
          · exact schemaFromTypeNode_warn tyN reg w (by rw [h1]; exact hw)
          · exact interfaceMembersGo_warn rest reg w (by rw [h2]; exact hw)
  | .otherM :: rest, reg, w, hw => by
    simp only [interfaceMembersGo] at hw
    exact interfaceMembersGo_warn rest reg w hw
termination_by members _ _ _ => (sizeOf members, 0)

end

theorem dtsWalk_warn :
    ∀ (decls : List TopDecl) (named : Registry) (ws : List String) (w : String),
      w ∈ (dtsWalk decls named ws).2 →
      w ∈ ws ∨ ∃ t, w = "Unsupported type node: " ++ t := by
  intro decls
  induction decls with
  | nil => intro named ws w hw; exact Or.inl (by simpa [dtsWalk] using hw)
  | cons d rest ih =>
    intro named ws w hw
    cases d with
    | interfaceDecl n members =>
      rcases hsi : schemaFromInterface members named with ⟨schema, w1⟩
      rw [dtsWalk] at hw
      rw [hsi] at hw
      rcases ih _ _ w hw with hmem | hex
      · rcases List.mem_append.1 hmem with hmem | hmem
        · exact Or.inl hmem
        · exact Or.inr (schemaFromInterface_warn members named w (by rw [hsi]; exact hmem))
      · exact Or.inr hex
    | typeAlias n ty =>
      rcases hsn : schemaFromTypeNode ty named with ⟨schema, w1⟩
      rw [dtsWalk] at hw
      rw [hsn] at hw
      rcases ih _ _ w hw with hmem | hex
      · rcases List.mem_append.1 hmem with hmem | hmem
        · exact Or.inl hmem
        · exact Or.inr (schemaFromTypeNode_warn ty named w (by rw [hsn]; exact hmem))
      · exact Or.inr hex
    | varTop ds =>
      rw [dtsWalk] at hw
      exacts [ih _ _ w hw, fun _ _ h => by simp at h, fun _ _ h => by simp at h]
    | otherTop =>
      rw [dtsWalk] at hw
      exacts [ih _ _ w hw, fun _ _ h => by simp at h, fun _ _ h => by simp at h]

end Mokup

namespace Mokup

/-- C10: when a name is produced both by an interface/type-alias declaration
and by a zod chain declaration in one source, `parseDtsSource` returns the
zod-derived schema for that name (the type-derived one is discarded), and no
warning about the collision is recorded: every warning is either the final
"No schemas parsed from d.ts." message or an "Unsupported type node: " message
from the type-node builder. -/
theorem C10_zod_overrides_type_schema (f : Nat) (src : List TopDecl)
    (name : String) (s : Schema)
    (hz : assocGet (mapZodSchemas f src) name = some s) :
    assocGet (parseDtsSource f src).schemas name = some s ∧
    ∀ w ∈ (parseDtsSource f src).warnings,
      w = "No schemas parsed from d.ts." ∨ ∃ t, w = "Unsupported type node: " ++ t := by
  rcases hW : dtsWalk src [] [] with ⟨named, warnings⟩
  have hkeys : ((mapZodSchemas f src).map Prod.fst).Nodup :=
    mapZod_keys_nodup f src [] [] (by simp)
  have hmem : name ∈ (mapZodSchemas f src).map Prod.fst := assocGet_some_mem hz
  have hdel : assocGet
      ((mapZodSchemas f src).foldl (fun b p => assocDelete b p.1) named) name = none :=
    fold_delete_mem_none _ _ _ hmem
  have hset : assocGet
      ((mapZodSchemas f src).foldl (fun a p => assocSet a p.1 p.2) []) name = some s :=
    foldl_set_lookup _ _ _ _ hkeys hz
  have hschemas : (parseDtsSource f src).schemas =
      ((mapZodSchemas f src).foldl (fun b p => assocDelete b p.1) named).foldl
        (fun a p => assocSet a p.1 p.2)
        ((mapZodSchemas f src).foldl (fun a p => assocSet a p.1 p.2) []) := by
    simp only [parseDtsSource, hW, zod_fold_split]
  refine ⟨?_, ?_⟩
  · rw [hschemas, foldl_set_none_skip _ _ _ hdel, hset]
  · intro w hw
    have hwsub : w ∈ warnings ++ ["No schemas parsed from d.ts."] := by
      simp only [parseDtsSource, hW, zod_fold_split] at hw
      split at hw
      · exact hw
      · exact List.mem_append_left _ hw
    rcases List.mem_append.1 hwsub with hwn | hmsg
    · have : w ∈ (dtsWalk src [] []).2 := by rw [hW]; exact hwn
      rcases dtsWalk_warn src [] [] w this with hempty | hex
      · simp at hempty
      · exact Or.inr hex
    · exact Or.inl (by simpa using hmsg)

end Mokup

namespace Mokup

/-- Witness for C10 at a concrete source: interface `User` and a zod
declaration `const User = z.string()` in one file; the zod schema wins. -/
theorem C10_witness :
    assocGet (parseDtsSource 5
        [.interfaceDecl "User" [],
         .varTop [(some "User",
           some (.call (.propAccess (.ident "z") "string") []))]]).schemas "User"
      = some [("type", JVal.str "string")] ∧
    ∀ w ∈ (parseDtsSource 5
        [.interfaceDecl "User" [],
         .varTop [(some "User",
           some (.call (.propAccess (.ident "z") "string") []))]]).warnings,
      w = "No schemas parsed from d.ts." ∨ ∃ t, w = "Unsupported type node: " ++ t :=
  C10_zod_overrides_type_schema 5
    [.interfaceDecl "User" [],
     .varTop [(some "User",
       some (.call (.propAccess (.ident "z") "string") []))]]
    "User" [("type", JVal.str "string")]
    (by simp [mapZodSchemas, mapZodSchemasGo, schemaFromZodExpression,
              schemaFromZodMethod, schemaFromZodCall, assocSet, assocGet])

end Mokup
